import Mathlib

/-!
Verification development for the `ria-hunter` ETL scripts.

This file gives a shallow embedding, in Lean 4, of the parts of the
repository relevant to the frozen claims:

* `scripts/apply_mappings.py` — the column mapper / canonicalizer
  (`map_adv_columns_to_standard`);
* `scripts/build_narratives.py` — the narrative builder
  (`build_narrative` and the profile-narrative loop in `main`);
* `scripts/populate_private_placement_data.py` and
  `scripts/populate_all_private_placement_data.py` — the reconciliation
  matchers (`match_firms_to_crd`, `match_firms_to_existing`);
* `scripts/load_to_supabase_final.py` — the persistence loader
  (`load_advisers`, `load_filings`, `load_narratives`).

Pandas cells are modelled by an explicit `Cell` type (string / integer /
NaN); dataframes by lists of rows.  Python-level failures (IndexError,
AttributeError) are modelled with `Except`.  Library calls
(`pd.to_numeric`, `str`, `str.replace`, `str.split`, string formatting)
are re-implemented here with the semantics they have at the call sites,
as documented on each definition.
-/

namespace RiaHunter

/-- A pandas cell: a string, an integer, or NaN (missing).  Numeric cells
are modelled as integers; the claims under study do not depend on
fractional cell values. -/
inductive Cell where
  | s (str : String)
  | n (int : Int)
  | null
deriving DecidableEq, Repr

/-- Python truthiness of a cell value.  Note that `float('nan')` is
truthy in Python, so a NaN cell is truthy. -/
def Cell.truthy : Cell → Bool
  | .s x => x ≠ ""
  | .n v => v ≠ 0
  | .null => true

/-- Decimal digit character (used to model Python's rendering of
integers). -/
def digitCharOf (d : Nat) : Char :=
  match d with
  | 0 => '0' | 1 => '1' | 2 => '2' | 3 => '3' | 4 => '4'
  | 5 => '5' | 6 => '6' | 7 => '7' | 8 => '8' | 9 => '9'
  | _ => '*'

/-- Fuel-indexed decimal rendering (structural recursion so that the
kernel can evaluate it; the fuel always suffices). -/
def natDigitsAux : Nat → Nat → List Char
  | 0, _ => []
  | fuel + 1, n =>
    if n < 10 then [digitCharOf n]
    else natDigitsAux fuel (n / 10) ++ [digitCharOf (n % 10)]

/-- Decimal digits of a natural number, most significant first
(models Python `str` on a non-negative `int`). -/
def natDigits (n : Nat) : List Char := natDigitsAux (n + 1) n

/-- Python `str` of an integer. -/
def pyIntStr (v : Int) : String :=
  ((if v < 0 then ['-'] else []) ++ natDigits v.natAbs).asString

/-- Python `str` of a cell value, as it appears inside an f-string:
strings verbatim, integers in decimal, NaN as `"nan"`. -/
def Cell.pyStr : Cell → String
  | .s x => x
  | .n v => pyIntStr v
  | .null => "nan"

/-- `pd.notna` on a cell. -/
def Cell.notna : Cell → Bool
  | .null => false
  | _ => true

/-- Value of `10^k`-place digits: a natural number read from decimal
digit characters. -/
def digitsToNat (l : List Char) : Nat :=
  l.foldl (fun a c => 10 * a + (c.toNat - 48)) 0

/-- Model of `pd.to_numeric(…, errors='coerce')` applied to one string,
followed by `.astype(int)`'s truncation toward zero: parses an optional
sign, integer digits and an optional fractional part, and returns the
integer part with the sign (`none` when the string is not a decimal
number — e.g. `"12,000"`, `""`, `"abc"`).  Scientific notation is not
modelled; no call site in the claims relies on it. -/
def toNumericStr (str : String) : Option Int :=
  let (neg, rest) :=
    match str.toList with
    | '-' :: r => (true, r)
    | '+' :: r => (false, r)
    | r => (false, r)
  let (ds, tail) := rest.span (·.isDigit)
  let mk : Nat → Option Int := fun m =>
    some (if neg then -(m : Int) else (m : Int))
  match tail with
  | [] => if ds.isEmpty then none else mk (digitsToNat ds)
  | '.' :: fs =>
    if fs.all (·.isDigit) ∧ ¬(ds.isEmpty ∧ fs.isEmpty) then
      mk (digitsToNat ds)
    else none
  | _ => none

/-- `pd.to_numeric(…, errors='coerce')` on a cell (after the
`fillna('')` pass of `apply_mappings.py` line 126, a NaN cell has become
the empty string, which coerces to NaN again): numeric cells pass
through, strings are parsed, NaN stays NaN (`none`). -/
def toNumericCell : Cell → Option Int
  | .n v => some v
  | .null => none
  | .s x => toNumericStr x

/-! ## Column mapper / canonicalizer (`scripts/apply_mappings.py`,
`map_adv_columns_to_standard`) -/

/-- One raw dataframe row: an association from raw column codes to cell
values.  A column listed in the table's `cols` but absent from a row's
association is a NaN cell (pandas gives every row a value for every
column of the frame). -/
def RawRow := List (String × Cell)

/-- The combined raw ADV table: a column set plus rows. -/
structure RawTable where
  cols : List String
  rows : List RawRow

/-- Cell of row `r` at column `c` (NaN when the association lacks the
key, matching pandas for a column of the frame). -/
def getCell (r : RawRow) (c : String) : Cell :=
  (r.lookup c).getD Cell.null

/-- The manual `adv_to_standard` source-column list of
`map_adv_columns_to_standard` (the keys of the `adv_to_standard` dict).
The output dataframe has one row per input row exactly when at least one
of these columns is present; otherwise `pd.DataFrame(output_data)` is
empty and the later `idx < len(output_df)` guards block every
assignment. -/
def advSourceCols : List String :=
  ["1A", "1B1", "1O", "1P", "1F1-City", "1F1-State", "1F1-Postal",
   "5F2f", "5B1a"]

/-- Number of rows of `output_df` (`len(output_df)`). -/
def outLen (t : RawTable) : Nat :=
  if advSourceCols.any (t.cols.contains ·) then t.rows.length else 0

/-- `df[col] == 'Y'` for one cell: true only for the literal string
`"Y"` (NaN and numbers compare unequal in pandas). -/
def cellEqY (c : Cell) : Bool := c = Cell.s "Y"

/-- `df[col] > 0` for one cell: true for a positive numeric cell, false
for NaN.  Pandas raises `TypeError` when the column holds strings; the
theorems below only evaluate this on numeric-or-NaN cells. -/
def cellGtZero : Cell → Bool
  | .n v => 0 < v
  | _ => false

/-- The `service_columns` dict of `map_adv_columns_to_standard`
(declared category order). -/
def service_columns : List (String × String) :=
  [("5G1", "Financial Planning"),
   ("5G2", "Portfolio Management (Individuals)"),
   ("5G3", "Portfolio Management (Businesses)"),
   ("5G4", "Pension Consulting"),
   ("5G5", "Selection of Other Advisers"),
   ("5G6", "Publication of Newsletters"),
   ("5G7", "Other Services")]

/-- The `client_columns` dict of `map_adv_columns_to_standard`. -/
def client_columns : List (String × String) :=
  [("5D1a", "Individuals (non-high net worth)"),
   ("5D1b", "High net worth individuals"),
   ("5D1c", "Banking or thrift institutions"),
   ("5D1d", "Investment companies"),
   ("5D1e", "Business development companies"),
   ("5D1f", "Pooled investment vehicles")]

/-- Appending one label to the growing comma-joined field
(`current + ', ' + name` when non-empty, else `name`). -/
def appendLabel (current label : String) : String :=
  if current = "" then label else current ++ ", " ++ label

/-- Whether row `i` of the table satisfies predicate `p` at column `c`. -/
def rowCellIs (t : RawTable) (i : Nat) (c : String) (p : Cell → Bool) : Bool :=
  match t.rows.get? i with
  | some r => p (getCell r c)
  | none => false

/-- One fold step of the coded-column loops of
`map_adv_columns_to_standard`: the label of column `c` is appended to
row `i`'s field exactly when the column is present, some row satisfies
the mask (`mask.any()`), `idx < len(output_df)`, and row `i` itself
satisfies the mask. -/
def codedStep (t : RawTable) (p : Cell → Bool) (i : Nat)
    (acc : String) (cl : String × String) : String :=
  if cl.1 ∈ t.cols ∧ (t.rows.any fun r => p (getCell r cl.1))
      ∧ i < outLen t ∧ rowCellIs t i cl.1 p then
    appendLabel acc cl.2
  else acc

/-- The `services` field of canonical row `i` (the `'Y'`-mask loop of
`map_adv_columns_to_standard`, lines 68–94). -/
def servicesAt (t : RawTable) (i : Nat) : String :=
  service_columns.foldl (codedStep t cellEqY i) ""

/-- The `client_types` field of canonical row `i` (the `> 0`-mask loop
of `map_adv_columns_to_standard`, lines 96–119). -/
def clientTypesAt (t : RawTable) (i : Nat) : String :=
  client_columns.foldl (codedStep t cellGtZero i) ""

/-- `fillna('')` composed with string rendering for the address
computation: a NaN street cell becomes the empty string.  A numeric
street cell would raise `TypeError` under pandas string concatenation;
the address theorems assume string-or-NaN street cells. -/
def strCellD : Cell → String
  | .s x => x
  | .null => ""
  | .n v => pyIntStr v

/-- Result of the address computation for one row. -/
inductive AddrOut where
  | absent
  | keyErr
  | val (s : String)
deriving DecidableEq, Repr

/-- The `address` field of a canonical row (lines 55–60 of
`apply_mappings.py`): computed only when both `1F1-Street 1` and
`1F1-City` are present; reading `df['1F1-Street 2']` raises `KeyError`
when that column is missing; otherwise
`street1 + (' ' + street2 if street2 else '')`. -/
def addressOf (t : RawTable) (r : RawRow) : AddrOut :=
  if "1F1-Street 1" ∈ t.cols ∧ "1F1-City" ∈ t.cols then
    if "1F1-Street 2" ∈ t.cols then
      let street1 := strCellD (getCell r "1F1-Street 1")
      let street2 := strCellD (getCell r "1F1-Street 2")
      .val (street1 ++ (if street2 ≠ "" then " " ++ street2 else ""))
    else .keyErr
  else .absent

/-- The `aum` field of a canonical row (line 128–130 of
`apply_mappings.py`): present only when raw column `5F2f` is, and then
`pd.to_numeric(…, errors='coerce').fillna(0).astype(int)`. -/
def aumOf (t : RawTable) (r : RawRow) : Option Int :=
  if "5F2f" ∈ t.cols then some ((toNumericCell (getCell r "5F2f")).getD 0)
  else none

/-- The `employee_count` field of a canonical row (lines 132–134 of
`apply_mappings.py`), same coercion as `aum` from raw column `5B1a`. -/
def employeeCountOf (t : RawTable) (r : RawRow) : Option Int :=
  if "5B1a" ∈ t.cols then some ((toNumericCell (getCell r "5B1a")).getD 0)
  else none

/-! ## Narrative builder (`scripts/build_narratives.py`) -/

/-- One row of `output/ria_profiles.csv` as loaded back by
`pd.read_csv` in `build_narratives.py` / `load_to_supabase_final.py`:
every canonical column exists, cells may be NaN. -/
structure ProfRow where
  firm_name : Cell := Cell.null
  city : Cell := Cell.null
  state : Cell := Cell.null
  zip_code : Cell := Cell.null
  address : Cell := Cell.null
  crd_number : Cell := Cell.null
  sec_number : Cell := Cell.null
  aum : Cell := Cell.null
  employee_count : Cell := Cell.null
  services : Cell := Cell.null
  client_types : Cell := Cell.null
deriving DecidableEq, Repr

/-- Python `sep.flatten(parts)`. -/
def pyJoin (sep : String) : List String → String
  | [] => ""
  | [x] => x
  | x :: xs => x ++ sep ++ pyJoin sep xs

/-- Python `str.strip()` (whitespace stripped from both ends). -/
def pyStrip (s : String) : String :=
  (((s.toList.dropWhile Char.isWhitespace).reverse.dropWhile
      Char.isWhitespace).reverse).asString

/-- Python `str.lower()` (ASCII case folding suffices at these call
sites). -/
def pyLower (s : String) : String := (s.toList.map Char.toLower).asString

/-- Guarded positive numeric value of a cell, modelling
`row.get(k) and row[k] > 0`: NaN is truthy but `nan > 0` is false; a
zero is falsy; a string operand would raise `TypeError` in Python (not
reached on canonicalizer output, where `aum`/`employee_count` are
numeric). -/
def cellPosInt : Cell → Option Int
  | .n v => if 0 < v then some v else none
  | _ => none

/-- Reversed decimal digits regrouped in blocks of three with `','`
separators (helper for Python's `,` format specifier). -/
def chunk3rev : List Char → List Char
  | a :: b :: c :: d :: rest => a :: b :: c :: ',' :: chunk3rev (d :: rest)
  | l => l

/-- Python `f"{n:,.0f}"` for a non-negative integer: decimal digits with
thousands separators. -/
def pyGroupNat (m : Nat) : String :=
  ((chunk3rev (natDigits m).reverse).reverse).asString

/-- Python `f"{v/scale:.1f}"` for positive `v`, modelled as exact
decimal rounding (half away from zero) to one fractional digit.  Binary
floating point can differ on ties of the discarded digits; no claim
depends on those digits. -/
def fmtScaled1 (v scale : Int) : String :=
  let t := (10 * v + scale / 2) / scale
  pyIntStr (t / 10) ++ "." ++ String.singleton (digitCharOf (t % 10).toNat)

/-- The AUM phrasing of `build_narrative` (lines 44–51). -/
def aumStrOf (v : Int) : String :=
  if v ≥ 1000000000 then "$" ++ fmtScaled1 v 1000000000 ++ " billion"
  else if v ≥ 1000000 then "$" ++ fmtScaled1 v 1000000 ++ " million"
  else "$" ++ pyGroupNat v.natAbs

/-- The `location_parts` list of `build_narrative` (lines 25–29). -/
def location_parts (r : ProfRow) : List String :=
  (if r.city.truthy ∧ r.city.notna then [r.city.pyStr] else []) ++
  (if r.state.truthy ∧ r.state.notna then [r.state.pyStr] else [])

/-- The location clause of `build_narrative` (lines 24–31). -/
def locationClause (r : ProfRow) : Option String :=
  if (location_parts r).isEmpty then none
  else some ("located in " ++ pyJoin ", " (location_parts r))

/-- The `identifiers` list of `build_narrative` (lines 34–38).  NaN
identifiers are truthy in Python and render as `"nan"`. -/
def identifiers (r : ProfRow) : List String :=
  (if r.crd_number.truthy then ["CRD number " ++ r.crd_number.pyStr] else []) ++
  (if r.sec_number.truthy then ["SEC file number " ++ r.sec_number.pyStr] else [])

/-- The identifier clause of `build_narrative` (lines 33–40). -/
def identClause (r : ProfRow) : Option String :=
  if (identifiers r).isEmpty then none
  else some ("with " ++ pyJoin " and " (identifiers r))

/-- The AUM clause of `build_narrative` (lines 42–52). -/
def aumClause (r : ProfRow) : Option String :=
  (cellPosInt r.aum).map fun v => "managing " ++ aumStrOf v ++ " in assets"

/-- The employee-count clause of `build_narrative` (lines 54–56). -/
def employeeClause (r : ProfRow) : Option String :=
  (cellPosInt r.employee_count).map fun v => "with " ++ pyIntStr v ++ " employees"

/-- The services / client-types clauses of `build_narrative`
(lines 58–68): guarded by truthiness and `pd.notna`, stripped, lowered,
and dropped when empty after stripping. -/
def textClause (c : Cell) (pre : String) : Option String :=
  if c.truthy ∧ c.notna then
    if pyStrip c.pyStr ≠ "" then some (pre ++ pyLower (pyStrip c.pyStr)) else none
  else none

/-- The ordered clause list (`parts`) of `build_narrative`. -/
def narrativeParts (r : ProfRow) : List String :=
  (if r.firm_name.truthy then
      [r.firm_name.pyStr ++ " is a registered investment adviser"] else []) ++
  (locationClause r).toList ++
  (identClause r).toList ++
  (aumClause r).toList ++
  (employeeClause r).toList ++
  (textClause r.services "offering services including ").toList ++
  (textClause r.client_types "serving ").toList

/-- Python `str.replace("..", ".")`: one left-to-right pass replacing
non-overlapping occurrences. -/
def replaceDD : List Char → List Char
  | [] => []
  | [c] => [c]
  | a :: b :: rest =>
    if a = '.' ∧ b = '.' then '.' :: replaceDD rest
    else a :: replaceDD (b :: rest)

/-- `build_narrative(row)` (lines 16–77 of `build_narratives.py`):
join the present clauses with `". "`, append a period, and run the
double-period replacement pass; empty string when no clause is
present. -/
def build_narrative (r : ProfRow) : String :=
  if (narrativeParts r).isEmpty then ""
  else (replaceDD (pyJoin ". " (narrativeParts r) ++ ".").toList).asString

/-- One entry of the narratives JSON emitted by `build_narratives.py`. -/
structure NarrJson where
  crd_number : String
  narrative : String
  source : String
deriving DecidableEq, Repr

/-- The profile-narrative loop of `build_narratives.py` `main`
(lines 147–154): one JSON entry per profile row whose rendered
narrative is non-empty and whose `crd_number` is truthy (a NaN
`crd_number` is truthy and is kept, rendered as `"nan"`). -/
def buildProfileNarratives (df : List ProfRow) : List NarrJson :=
  df.filterMap fun row =>
    let narrative := build_narrative row
    if narrative ≠ "" ∧ row.crd_number.truthy then
      some ⟨row.crd_number.pyStr, narrative, "ria_profile"⟩
    else none

/-! ## Reconciliation matchers
(`scripts/populate_private_placement_data.py` `match_firms_to_crd`,
`scripts/populate_all_private_placement_data.py`
`match_firms_to_existing`) -/

/-- One persisted `ria_profiles` record, with the two fields the
matchers read. -/
structure ExRow where
  crd_number : Cell
  legal_name : Cell
deriving DecidableEq, Repr

/-- Python `str.upper()` (ASCII case folding suffices at these call
sites). -/
def pyUpper (s : String) : String := (s.toList.map Char.toUpper).asString

/-- `Series.str.upper()` on one cell: strings are upper-cased,
non-strings become NaN (`none`). -/
def upperCell : Cell → Option String
  | .s x => some (pyUpper x)
  | _ => none

/-- First token of Python `str.split()` (split on whitespace runs,
empty pieces dropped): `none` when the string has no token, in which
case the source's `[0]` raises `IndexError`. -/
def firstToken? (s : String) : Option String :=
  match s.toList.dropWhile Char.isWhitespace with
  | [] => none
  | rest => some (rest.takeWhile (fun c => ¬ c.isWhitespace)).asString

/-- Substring containment on char lists. -/
def containsSub (hay needle : List Char) : Bool :=
  hay.tails.any (needle.isPrefixOf ·)

/-- `Series.str.upper().str.contains(tok, na=False)` on one cell: false
for non-string cells (`na=False`); on a string cell the pandas test is
`re.search(tok, name.upper())` — `str.contains` reads the token as a
regular expression (`regex=True` is the default).  The regex engine is
an external library outside this embedding, so the matchers are
parameterized by the boolean search function `reSearch` (pattern
first, haystack second) that realizes it. -/
def containsTok (reSearch : String → String → Bool) (c : Cell)
    (tok : String) : Bool :=
  match c with
  | .s x => reSearch tok (pyUpper x)
  | _ => false

/-- The literal-substring instantiation of the regex search.  It agrees
with `re.search` exactly on patterns free of regex metacharacters —
which is true of every concrete token appearing in the closed
statements below (such as `"ACME"`); a token like `"ST."` would behave
differently under the real engine, which is why the theorems about the
partial stage quantify over `reSearch` instead of fixing this
instantiation. -/
def literalSearch (pat hay : String) : Bool :=
  containsSub hay.toList pat.toList

/-- Per-row match outcome (`match_type` `'exact'`/`'crd_exact'`,
`'partial'`/`'name_partial'`, `'none'`, with the chosen existing
record attached). -/
inductive MatchOutcome where
  | exact (e : ExRow)
  | partialM (e : ExRow)
  | noneM
deriving DecidableEq, Repr

/-- Python exceptions the matchers can raise. -/
inductive MatchErr where
  | indexError
  | attributeError
deriving DecidableEq, Repr

/-- One iteration of `match_firms_to_crd` (lines 53–103 of
`populate_private_placement_data.py`) for the analysis row's `1A` cell:
exact stage compares upper-cased `legal_name` with the upper-cased firm
name; partial stage takes the first existing row whose upper-cased name
passes the `str.contains` regex test for the firm name's first
whitespace token (`IndexError` when the name has no token); a
non-string firm name raises `AttributeError` at `firm_name.upper()`. -/
def match_firms_to_crd_row (reSearch : String → String → Bool)
    (existing : List ExRow) (firmName : Cell) :
    Except MatchErr MatchOutcome :=
  match firmName with
  | .s fn =>
    match existing.find? (fun e => upperCell e.legal_name == some (pyUpper fn)) with
    | some e => .ok (.exact e)
    | none =>
      match firstToken? (pyUpper fn) with
      | none => .error .indexError
      | some tok =>
        match existing.find? (fun e => containsTok reSearch e.legal_name tok) with
        | some e => .ok (.partialM e)
        | none => .ok .noneM
  | _ => .error .attributeError

/-- `match_firms_to_crd(analysis_df, existing_df)`: the per-row loop
plus, for the frame-effect claim, the two input tables as the function
leaves them — this function never assigns into either dataframe.  A
raised exception aborts the loop (first error wins). -/
def match_firms_to_crd (reSearch : String → String → Bool)
    (analysis : List Cell) (existing : List ExRow) :
    Except MatchErr (List MatchOutcome) × List Cell × List ExRow :=
  (analysis.mapM (match_firms_to_crd_row reSearch existing), analysis, existing)

/-- One row of the private-fund analysis table consumed by
`match_firms_to_existing`. -/
structure PfRow where
  crd_number : Cell
  firm_name : Cell
deriving DecidableEq, Repr

/-- `.astype(str)` on one cell (`str(123) = "123"`,
`str(float('nan')) = "nan"`). -/
def astypeStr : Cell → Cell
  | .n v => .s (pyIntStr v)
  | .null => .s "nan"
  | .s x => .s x

/-- In-place mutation of the `crd_number` column
(`existing_df['crd_number'] = existing_df['crd_number'].astype(str)`,
line 102 of `populate_all_private_placement_data.py`). -/
def mutateCrdEx (e : ExRow) : ExRow := { e with crd_number := astypeStr e.crd_number }

/-- In-place mutation of the analysis table's `crd_number` column
(line 103). -/
def mutateCrdPf (p : PfRow) : PfRow := { p with crd_number := astypeStr p.crd_number }

/-- One iteration of `match_firms_to_existing` (lines 105–158): exact
stage is string equality on the (string-converted) `crd_number`
columns; partial stage as in `match_firms_to_crd_row`. -/
def match_firms_to_existing_row (reSearch : String → String → Bool)
    (existing : List ExRow) (crdStr : String)
    (firmName : Cell) : Except MatchErr MatchOutcome :=
  match existing.find? (fun e => e.crd_number == Cell.s crdStr) with
  | some e => .ok (.exact e)
  | none =>
    match firmName with
    | .s fn =>
      match firstToken? (pyUpper fn) with
      | none => .error .indexError
      | some tok =>
        match existing.find? (fun e => containsTok reSearch e.legal_name tok) with
        | some e => .ok (.partialM e)
        | none => .ok .noneM
    | _ => .error .attributeError

/-- `match_firms_to_existing(private_fund_df, existing_df)`: both input
tables' `crd_number` columns are overwritten with their string
conversions before the loop (lines 102–103); the loop then matches each
analysis row against the mutated existing table.  The second and third
components are the analysis and existing tables as the caller sees them
afterwards. -/
def match_firms_to_existing (reSearch : String → String → Bool)
    (pf : List PfRow) (existing : List ExRow) :
    Except MatchErr (List MatchOutcome) × List PfRow × List ExRow :=
  let pf' := pf.map mutateCrdPf
  let ex' := existing.map mutateCrdEx
  (pf'.mapM (fun p =>
      match_firms_to_existing_row reSearch ex' p.crd_number.pyStr p.firm_name),
   pf', ex')

/-! ## Persistence loader (`scripts/load_to_supabase_final.py`) -/

/-- A scalar Python value as returned by `clean_value`: `None`, a
number, or a string. -/
inductive PyVal where
  | i (v : Int)
  | str (s : String)
  | noneV
deriving DecidableEq, Repr

/-- Python truthiness of such a value. -/
def PyVal.truthy : PyVal → Bool
  | .i v => v ≠ 0
  | .str s => s ≠ ""
  | .noneV => false

/-- `clean_value` (lines 35–43 of `load_to_supabase_final.py`): NaN
becomes `None`, numbers pass through (`.item()`), a truthy string is
stripped, a falsy value becomes `None`. -/
def clean_value : Cell → PyVal
  | .null => .noneV
  | .n v => .i v
  | .s x => if x ≠ "" then .str (pyStrip x) else .noneV

/-- `generate_unique_id` (lines 45–54).  Modelled: the truncated MD5
hex digest of `f"{firm_name}|{city}|{state}"` is replaced by that
string itself — every claim uses only that the generated id is a
function of those three stripped fields, prefixed `"GEN_"`; `hashlib`
is an external library. -/
def generate_unique_id (row : ProfRow) : String :=
  "GEN_" ++ pyStrip row.firm_name.pyStr ++ "|" ++ pyStrip row.city.pyStr
    ++ "|" ++ pyStrip row.state.pyStr

/-- The CIK chosen for a profile row (lines 64–78, recomputed
identically at lines 226–230): the cleaned `sec_number` when truthy and
not a placeholder, else the generated id. -/
def cikOfRow (row : ProfRow) : PyVal :=
  let sec := clean_value row.sec_number
  if sec.truthy ∧ sec ∉ [PyVal.str "NONE", PyVal.str "None", PyVal.str ""] then sec
  else .str (generate_unique_id row)

/-- One adviser record as `load_advisers` builds it (lines 80–87). -/
structure Adviser where
  cik : PyVal
  legal_name : PyVal
  main_addr_street1 : PyVal := PyVal.noneV
  main_addr_city : PyVal := PyVal.noneV
  main_addr_state : PyVal := PyVal.noneV
  main_addr_zip : PyVal := PyVal.noneV
deriving DecidableEq, Repr

/-- The adviser rows retained from the profile table (lines 63–88):
rows without a truthy cleaned firm name are skipped. -/
def load_advisers_records (df : List ProfRow) : List Adviser :=
  df.filterMap fun row =>
    let firm := clean_value row.firm_name
    if firm.truthy then
      some { cik := cikOfRow row, legal_name := firm,
             main_addr_street1 := clean_value row.address,
             main_addr_city := clean_value row.city,
             main_addr_state := clean_value row.state,
             main_addr_zip := clean_value row.zip_code }
    else none

/-- CIK-deduplication of `load_advisers` (lines 90–96): first
occurrence wins. -/
def dedupByCik : List Adviser → List PyVal → List Adviser
  | [], _ => []
  | a :: rest, seen =>
    if a.cik ∈ seen then dedupByCik rest seen
    else a :: dedupByCik rest (a.cik :: seen)

/-- The `unique_advisers` list of `load_advisers`. -/
def unique_advisers_of (df : List ProfRow) : List Adviser :=
  dedupByCik (load_advisers_records df) []

/-- Fuel-indexed batch slicing (structural recursion so that the
kernel can evaluate it; the fuel always suffices). -/
def chunksOfAux (n : Nat) : Nat → List α → List (List α)
  | _, [] => []
  | 0, _ :: _ => []
  | fuel + 1, x :: xs => (x :: xs).take n :: chunksOfAux n fuel (xs.drop (n - 1))

/-- Successive slices of at most `n` records
(`for i in range(0, len(l), n): l[i:i+n]`); meaningful for `n ≥ 1`. -/
def chunksOf (n : Nat) (l : List α) : List (List α) :=
  chunksOfAux n l.length l

/-- Outcome of one adviser upsert batch (lines 103–114): the whole
batch on success; on failure, every record of the batch is retried
individually and the individually accepted ones survive (a failed
individual record is logged and dropped).  `ok` models the remote
store's accept/reject answer for one call. -/
def upsertBatchResult (ok : List Adviser → Bool) (batch : List Adviser) :
    List Adviser :=
  if ok batch then batch else batch.filter fun r => ok [r]

/-- All adviser records committed by the batched upsert loop of
`load_advisers`. -/
def load_advisers_committed (ok : List Adviser → Bool) (recs : List Adviser) :
    List Adviser :=
  ((chunksOf 500 recs).map (upsertBatchResult ok)).flatten

/-- Outcome of one insert batch with no per-record fallback
(`load_filings` lines 187–192, `load_narratives` lines 269–274): the
whole batch on success, nothing on failure (the exception is only
logged). -/
def insertBatchResult (ok : List α → Bool) (batch : List α) : List α :=
  if ok batch then batch else []

/-- One filing record as `load_filings` builds it (lines 158–168).
The constant fields (`filing_date`, `report_period_end_date`,
`form_type = 'ADV'`, `source_file_name`) are omitted: they are
identical on every record. -/
structure Filing where
  adviser_fk : Nat
  total_aum : Int
  employee_count : Int
  services : PyVal := PyVal.noneV
  client_types : PyVal := PyVal.noneV
deriving DecidableEq, Repr

/-- Python `int(...)` on a string: optional sign and decimal digits
(after stripping whitespace); `none` models `ValueError`. -/
def pyIntParse (s : String) : Option Int :=
  let (neg, ds) :=
    match (pyStrip s).toList with
    | '-' :: r => (true, r)
    | '+' :: r => (false, r)
    | r => (false, r)
  if ds ≠ [] ∧ ds.all (·.isDigit) then
    some (if neg then -(digitsToNat ds : Int) else (digitsToNat ds : Int))
  else none

/-- `int(clean_value(cell) or 0)` (lines 163–164): `None` and falsy
values become `0`; a non-integer string would raise `ValueError`,
modelled as `0` (unreached: canonicalizer output has numeric
`aum`/`employee_count` cells). -/
def intCleanOr0 (c : Cell) : Int :=
  match clean_value c with
  | .noneV => 0
  | .i v => v
  | .str s => (pyIntParse s).getD 0

/-- `cell == pyvalue` under pandas elementwise comparison: equal only
when kinds and values agree; NaN equals nothing. -/
def cellEqPy (c : Cell) (p : PyVal) : Bool :=
  match c, p with
  | .s x, .str y => x = y
  | .n v, .i w => v = w
  | _, _ => false

/-- The `filings_data` list of `load_filings` (lines 134–169): one
candidate filing per `adviser_map` entry whose adviser record resolves
and for which some profile row matches on firm name or on
`sec_number == cik`; its foreign key is that entry's `adviser_pk`.
Python dict lookups are modelled by `find?` (the dicts involved have
distinct keys). -/
def filing_candidate (df : List ProfRow) (unique_advisers : List Adviser)
    (ck : PyVal × Nat) : Option Filing :=
  (unique_advisers.find? (fun a => a.cik == ck.1)).bind fun ainfo =>
    (df.find? (fun row =>
        cellEqPy row.firm_name ainfo.legal_name
          || cellEqPy row.sec_number ck.1)).map fun row =>
      { adviser_fk := ck.2,
        total_aum := intCleanOr0 row.aum,
        employee_count := intCleanOr0 row.employee_count,
        services := clean_value row.services,
        client_types := clean_value row.client_types }

/-- The full `filings_data` list (one traversal of `adviser_map`). -/
def filings_data (df : List ProfRow) (adviser_map : List (PyVal × Nat))
    (unique_advisers : List Adviser) : List Filing :=
  adviser_map.filterMap (filing_candidate df unique_advisers)

/-- The `new_filings` filter of `load_filings` (lines 171–183): only
candidates whose adviser has no filing in the remote store are kept
(`existingFks` is the store's set of `adviser_fk`s with a filing). -/
def new_filings (fdata : List Filing) (existingFks : List Nat) : List Filing :=
  fdata.filter fun f => ¬ existingFks.contains f.adviser_fk

/-- All filing records committed by the batched insert loop of
`load_filings` (lines 185–192): no per-record fallback. -/
def load_filings_committed (ok : List Filing → Bool) (recs : List Filing) :
    List Filing :=
  ((chunksOf 500 recs).map (insertBatchResult ok)).flatten

/-- One `ria_narratives` record as `load_narratives` builds it
(lines 237–243). -/
structure NarrRec where
  adviser_fk : Nat
  filing_fk : Nat
  narrative_type : String
  narrative_text : String
  source : String
deriving DecidableEq, Repr

/-- One iteration of the narrative-pairing loop of `load_narratives`:
the adviser key is recomputed from the paired profile row — the
narrative's own `crd_number` field is never read; a pair whose
recomputed CIK or whose filing key fails to resolve increments the
unmatched count, otherwise the record is appended. -/
def narrPairStep (adviser_map : List (PyVal × Nat)) (filing_map : List (Nat × Nat))
    (acc : List NarrRec × Nat) (nr : NarrJson × ProfRow) : List NarrRec × Nat :=
  match adviser_map.find? (fun p => p.1 == cikOfRow nr.2) with
  | some ap =>
    match filing_map.find? (fun q => q.1 == ap.2) with
    | some fp =>
      (acc.1 ++ [⟨ap.2, fp.2, "profile", nr.1.narrative, nr.1.source⟩], acc.2)
    | none => (acc.1, acc.2 + 1)
  | none => (acc.1, acc.2 + 1)

/-- The narrative-pairing loop of `load_narratives` (lines 219–248):
the `i`-th narrative is paired with the `i`-th profile row (narratives
beyond `len(df)` are silently dropped, which `zip` reproduces) and
processed by `narrPairStep`.  Returns the records and the unmatched
count. -/
def load_narratives_data (narrs : List NarrJson) (df : List ProfRow)
    (adviser_map : List (PyVal × Nat)) (filing_map : List (Nat × Nat)) :
    List NarrRec × Nat :=
  (narrs.zip df).foldl (narrPairStep adviser_map filing_map) ([], 0)

/-- All narrative records committed by the batched insert loop of
`load_narratives` (lines 267–274): batches of 250, no per-record
fallback. -/
def load_narratives_committed (ok : List NarrRec → Bool) (recs : List NarrRec) :
    List NarrRec :=
  ((chunksOf 250 recs).map (insertBatchResult ok)).flatten

/-! ## Declarative descriptions used by the theorems -/

/-- `a` is the first element of `l` satisfying `p`: everything before
it fails the predicate.  Used to state the "first qualifying candidate
in table order" part of the matcher claims. -/
def FirstWith (p : α → Bool) (l : List α) (a : α) : Prop :=
  ∃ l₁ l₂, l = l₁ ++ a :: l₂ ∧ (∀ x ∈ l₁, p x = false) ∧ p a = true

/-- The labels a coded-column loop appends to row `i`, described
declaratively: the declared-order labels of the present columns whose
row-`i` cell satisfies the mask predicate. -/
def codedLabels (t : RawTable) (p : Cell → Bool) (i : Nat)
    (cols : List (String × String)) : List String :=
  (cols.filter fun cl => t.cols.contains cl.1 && rowCellIs t i cl.1 p).map Prod.snd

/-- Two consecutive periods somewhere in the character list (the
`".."` substring the narrative claim is about). -/
def hasDD : List Char → Bool
  | a :: b :: rest => ((a == '.') && (b == '.')) || hasDD (b :: rest)
  | _ => false

/-- Three consecutive periods somewhere in the character list. -/
def hasTriple : List Char → Bool
  | a :: b :: c :: rest =>
    ((a == '.') && (b == '.') && (c == '.')) || hasTriple (b :: c :: rest)
  | _ => false

/-! ## Lemmas -/

/-- A row-level mask hit at row `i` makes `mask.any()` true. -/
theorem any_of_rowCellIs {t : RawTable} {i : Nat} {c : String} {p : Cell → Bool}
    (h : rowCellIs t i c p = true) :
    (t.rows.any fun r => p (getCell r c)) = true := by
  unfold rowCellIs at h
  rcases hg : t.rows.get? i with _ | r
  · rw [hg] at h; exact absurd h (by simp)
  · rw [hg] at h
    exact List.any_eq_true.2 ⟨r, List.get?_mem hg, h⟩

/-- The coded-column fold, relative to an arbitrary accumulator, is the
label fold of the declarative label list. -/
theorem codedStep_foldl (t : RawTable) (p : Cell → Bool) (i : Nat)
    (hi : i < outLen t) :
    ∀ (cols : List (String × String)) (acc : String),
      cols.foldl (codedStep t p i) acc =
        (codedLabels t p i cols).foldl appendLabel acc := by
  intro cols
  induction cols with
  | nil => intro acc; rfl
  | cons cl rest ih =>
    intro acc
    by_cases hc : cl.1 ∈ t.cols
    · by_cases hr : rowCellIs t i cl.1 p = true
      · have hstep : codedStep t p i acc cl = appendLabel acc cl.2 := by
          unfold codedStep
          rw [if_pos ⟨hc, any_of_rowCellIs hr, hi, hr⟩]
        have hlab : codedLabels t p i (cl :: rest) =
            cl.2 :: codedLabels t p i rest := by
          unfold codedLabels
          rw [List.filter_cons_of_pos]
          · rfl
          · simp [hc, hr]
        simp only [List.foldl_cons, hstep, hlab, ih]
      · have hstep : codedStep t p i acc cl = acc := by
          unfold codedStep
          rw [if_neg]; intro hcon; exact hr hcon.2.2.2
        have hlab : codedLabels t p i (cl :: rest) = codedLabels t p i rest := by
          unfold codedLabels
          rw [List.filter_cons_of_neg]
          simp [hr]
        simp only [List.foldl_cons, hstep, hlab, ih]
    · have hstep : codedStep t p i acc cl = acc := by
        unfold codedStep
        rw [if_neg]; intro hcon; exact hc hcon.1
      have hlab : codedLabels t p i (cl :: rest) = codedLabels t p i rest := by
        unfold codedLabels
        rw [List.filter_cons_of_neg]
        simp [hc]
      simp only [List.foldl_cons, hstep, hlab, ih]

/-- Folding `appendLabel` over non-empty labels from a non-empty
accumulator appends a comma-joined tail. -/
theorem appendLabel_foldl_ne (ls : List String) :
    ∀ acc : String, acc ≠ "" → (∀ l ∈ ls, l ≠ "") →
      ls.foldl appendLabel acc =
        (match ls with
         | [] => acc
         | _ :: _ => acc ++ ", " ++ pyJoin ", " ls) := by
  induction ls with
  | nil => intro acc _ _; rfl
  | cons l rest ih =>
    intro acc hacc hne
    have hl : l ≠ "" := hne l (List.mem_cons_self l rest)
    have happ : appendLabel acc l = acc ++ ", " ++ l := by
      unfold appendLabel; rw [if_neg hacc]
    have hne' : acc ++ ", " ++ l ≠ "" := by
      intro hcon
      have := congrArg String.length hcon
      simp [String.length_append] at this
      have h2 : (", " : String).length = 2 := by decide
      omega
    cases rest with
    | nil => simp [List.foldl_cons, happ, pyJoin]
    | cons m ms =>
      have := ih (acc ++ ", " ++ l) hne' (fun x hx => hne x (List.mem_cons_of_mem l hx))
      simp only [List.foldl_cons, happ, this]
      simp [pyJoin, String.append_assoc]

/-- Folding `appendLabel` from the empty accumulator comma-joins the
labels. -/
theorem appendLabel_foldl_empty (ls : List String) (hne : ∀ l ∈ ls, l ≠ "") :
    ls.foldl appendLabel "" = pyJoin ", " ls := by
  cases ls with
  | nil => rfl
  | cons l rest =>
    have hl : l ≠ "" := hne l (List.mem_cons_self l rest)
    have happ : appendLabel "" l = l := by unfold appendLabel; rw [if_pos rfl]
    cases rest with
    | nil => simp [List.foldl_cons, happ, pyJoin]
    | cons m ms =>
      have := appendLabel_foldl_ne (m :: ms) l hl
        (fun x hx => hne x (List.mem_cons_of_mem l hx))
      simp only [List.foldl_cons, happ, this, pyJoin]

/-- The declarative label list is duplicate-free and contains a
declared label exactly when its column is present and the row's cell
satisfies the mask. -/
theorem codedLabels_spec (t : RawTable) (p : Cell → Bool) (i : Nat)
    (cols : List (String × String)) (hnd : (cols.map Prod.snd).Nodup) :
    (codedLabels t p i cols).Nodup ∧
      ∀ cl ∈ cols, (cl.2 ∈ codedLabels t p i cols ↔
        cl.1 ∈ t.cols ∧ rowCellIs t i cl.1 p = true) := by
  constructor
  · exact hnd.sublist ((List.filter_sublist _).map Prod.snd)
  · intro cl hcl
    constructor
    · intro hmem
      rcases List.mem_map.1 hmem with ⟨cl', hcl', hsnd⟩
      rcases List.mem_filter.1 hcl' with ⟨hmem', hq⟩
      have : cl' = cl := List.inj_on_of_nodup_map hnd hmem' hcl hsnd
      subst this
      simp only [Bool.and_eq_true, decide_eq_true_eq] at hq
      exact ⟨by simpa using hq.1, hq.2⟩
    · intro ⟨hc, hr⟩
      apply List.mem_map.2
      refine ⟨cl, List.mem_filter.2 ⟨hcl, ?_⟩, rfl⟩
      simp [hc, hr]

/-- The coded-column fold equals the comma-join of the declarative
label list. -/
theorem coded_foldl_eq_join (t : RawTable) (p : Cell → Bool) (i : Nat)
    (cols : List (String × String)) (hi : i < outLen t)
    (hlab : ∀ l ∈ cols.map Prod.snd, l ≠ "") :
    cols.foldl (codedStep t p i) "" = pyJoin ", " (codedLabels t p i cols) := by
  rw [codedStep_foldl t p i hi cols ""]
  apply appendLabel_foldl_empty
  intro l hl
  apply hlab
  exact ((List.filter_sublist _).map Prod.snd).subset hl

/-- `find?` returns exactly the first element satisfying the
predicate. -/
theorem find?_iff_firstWith {p : α → Bool} :
    ∀ {l : List α} {a : α}, l.find? p = some a ↔ FirstWith p l a := by
  intro l
  induction l with
  | nil =>
    intro a
    constructor
    · intro h; cases h
    · rintro ⟨l₁, l₂, hl, -, -⟩
      exact absurd hl (by simp)
  | cons x xs ih =>
    intro a
    constructor
    · intro h
      by_cases hx : p x = true
      · rw [List.find?_cons_of_pos _ hx] at h
        have hxa : x = a := by injection h
        subst hxa
        exact ⟨[], xs, rfl, by simp, hx⟩
      · rw [List.find?_cons_of_neg _ hx] at h
        rcases ih.1 h with ⟨l₁, l₂, hl, hfail, hpa⟩
        refine ⟨x :: l₁, l₂, by rw [hl, List.cons_append], ?_, hpa⟩
        intro z hz
        rcases List.mem_cons.1 hz with rfl | hz'
        · exact Bool.not_eq_true _ ▸ Bool.of_not_eq_true hx
        · exact hfail z hz'
    · rintro ⟨l₁, l₂, hl, hfail, hpa⟩
      cases l₁ with
      | nil =>
        simp only [List.nil_append] at hl
        have hxa : x = a := (List.cons.injEq _ _ _ _ ▸ hl).1
        have hxs : xs = l₂ := (List.cons.injEq _ _ _ _ ▸ hl).2
        subst hxa
        rw [List.find?_cons_of_pos _ hpa]
      | cons y ys =>
        have hxy : x = y := (List.cons.injEq _ _ _ _ ▸ hl).1
        have htl : xs = ys ++ a :: l₂ := (List.cons.injEq _ _ _ _ ▸ hl).2
        have hpx : p x = false := hxy ▸ hfail y (by simp)
        rw [List.find?_cons_of_neg _ (by simp [hpx])]
        exact ih.2 ⟨ys, l₂, htl, fun z hz => hfail z (List.mem_cons_of_mem y hz), hpa⟩

/-- Characterization of the two-stage first-success matcher shape:
exact stage first, partial stage only when no exact candidate exists,
NONE only when neither stage has a candidate; each stage takes the
first qualifying candidate in table order. -/
theorem matchStage_spec (ex : List ExRow) (pe pp : ExRow → Bool)
    (res : Except MatchErr MatchOutcome)
    (hres : res = match ex.find? pe with
      | some e => .ok (.exact e)
      | none =>
        match ex.find? pp with
        | some e => .ok (.partialM e)
        | none => .ok .noneM) :
    (∀ e, res = .ok (.exact e) ↔ FirstWith pe ex e)
    ∧ (∀ e, res = .ok (.partialM e) ↔
        (∀ x ∈ ex, pe x = false) ∧ FirstWith pp ex e)
    ∧ (res = .ok .noneM ↔
        (∀ x ∈ ex, pe x = false) ∧ ∀ x ∈ ex, pp x = false) := by
  subst hres
  rcases hfe : ex.find? pe with _ | e
  · have hefail : ∀ x ∈ ex, pe x = false := by
      intro x hx
      have := List.find?_eq_none.1 hfe x hx
      simpa using this
    rcases hfp : ex.find? pp with _ | e'
    · have hpfail : ∀ x ∈ ex, pp x = false := by
        intro x hx
        have := List.find?_eq_none.1 hfp x hx
        simpa using this
      refine ⟨?_, ?_, ?_⟩
      · intro e
        simp only [Except.ok.injEq]
        constructor
        · intro h; cases h
        · intro hfw
          have := find?_iff_firstWith.2 hfw
          rw [hfe] at this; cases this
      · intro e
        simp only [Except.ok.injEq]
        constructor
        · intro h; cases h
        · rintro ⟨-, hfw⟩
          have := find?_iff_firstWith.2 hfw
          rw [hfp] at this; cases this
      · exact ⟨fun _ => ⟨hefail, hpfail⟩, fun _ => rfl⟩
    · refine ⟨?_, ?_, ?_⟩
      · intro e
        simp only [Except.ok.injEq]
        constructor
        · intro h; cases h
        · intro hfw
          have := find?_iff_firstWith.2 hfw
          rw [hfe] at this; cases this
      · intro e
        simp only [Except.ok.injEq, MatchOutcome.partialM.injEq]
        constructor
        · rintro rfl
          exact ⟨hefail, find?_iff_firstWith.1 hfp⟩
        · rintro ⟨-, hfw⟩
          have := find?_iff_firstWith.2 hfw
          rw [hfp] at this
          injection this
      · constructor
        · intro h; cases h
        · rintro ⟨-, hpfail⟩
          have := List.mem_of_find?_eq_some hfp
          have h2 := List.find?_some hfp
          rw [hpfail e' this] at h2; cases h2
  · have hmem := List.mem_of_find?_eq_some hfe
    have hpe := List.find?_some hfe
    refine ⟨?_, ?_, ?_⟩
    · intro e'
      simp only [Except.ok.injEq, MatchOutcome.exact.injEq]
      constructor
      · rintro rfl
        exact find?_iff_firstWith.1 hfe
      · intro hfw
        have h2 := find?_iff_firstWith.2 hfw
        rw [hfe] at h2
        exact Option.some_inj.mp h2
    · intro e'
      constructor
      · intro h; cases h
      · rintro ⟨hefail, -⟩
        rw [hefail e hmem] at hpe; cases hpe
    · constructor
      · intro h; cases h
      · rintro ⟨hefail, -⟩
        rw [hefail e hmem] at hpe; cases hpe

/-! ## Claim C1 — numeric coercion of `aum` / `employee_count` -/

/-- C1 (counterexample): the claim asserts every canonical `aum` is
`≥ 0`, but `pd.to_numeric(…, errors='coerce').fillna(0).astype(int)`
passes a parsable negative raw value straight through: the raw cell
`"-5"` yields `aum = -5 < 0`. -/
theorem c1_counterexample :
    aumOf ⟨["5F2f"], [[("5F2f", Cell.s "-5")]]⟩ [("5F2f", Cell.s "-5")]
        = some (-5)
      ∧ (-5 : Int) < 0 := by
  exact ⟨by decide, by decide⟩

/-- C1 (amended): whenever the raw `5F2f` / `5B1a` columns are present,
the canonical `aum` and `employee_count` are integers and never
null/NaN: an unparsable or missing raw value coerces to `0` (in
particular `"12,000"`, `""` and `"abc"` do), and a parsable raw value
such as `"5000000"` yields exactly the parsed number — which is the
only way a value below `0` can arise (the coercion does not clamp
parsable negatives). -/
theorem c1_amended (t : RawTable) (r : RawRow)
    (ha : "5F2f" ∈ t.cols) (he : "5B1a" ∈ t.cols) :
    (toNumericCell (getCell r "5F2f") = none → aumOf t r = some 0)
    ∧ (∀ v, toNumericCell (getCell r "5F2f") = some v → aumOf t r = some v)
    ∧ (toNumericCell (getCell r "5B1a") = none → employeeCountOf t r = some 0)
    ∧ (∀ v, toNumericCell (getCell r "5B1a") = some v →
        employeeCountOf t r = some v)
    ∧ (∀ v, aumOf t r = some v → 0 ≤ v ∨ toNumericCell (getCell r "5F2f") = some v)
    ∧ toNumericStr "12,000" = none
    ∧ toNumericStr "" = none
    ∧ toNumericStr "abc" = none
    ∧ toNumericStr "5000000" = some 5000000 := by
  refine ⟨?_, ?_, ?_, ?_, ?_, by decide, by decide, by decide, by decide⟩
  · intro h; simp [aumOf, ha, h]
  · intro v h; simp [aumOf, ha, h]
  · intro h; simp [employeeCountOf, he, h]
  · intro v h; simp [employeeCountOf, he, h]
  · intro v h
    rcases hn : toNumericCell (getCell r "5F2f") with _ | w
    · left
      simp [aumOf, ha, hn] at h
      omega
    · right
      simp [aumOf, ha, hn] at h
      rw [h]

/-- C1 (witness): the amended theorem applied at a concrete table whose
raw `5F2f` cell is `"5000000"` and whose `5B1a` cell is `"abc"`. -/
theorem c1_witness :
    aumOf (RawTable.mk ["5F2f", "5B1a"]
        [[("5F2f", Cell.s "5000000"), ("5B1a", Cell.s "abc")]])
      [("5F2f", Cell.s "5000000"), ("5B1a", Cell.s "abc")] = some 5000000
    ∧ employeeCountOf (RawTable.mk ["5F2f", "5B1a"]
        [[("5F2f", Cell.s "5000000"), ("5B1a", Cell.s "abc")]])
      [("5F2f", Cell.s "5000000"), ("5B1a", Cell.s "abc")] = some 0 := by
  have h := c1_amended (RawTable.mk ["5F2f", "5B1a"]
      [[("5F2f", Cell.s "5000000"), ("5B1a", Cell.s "abc")]])
    [("5F2f", Cell.s "5000000"), ("5B1a", Cell.s "abc")]
    (by decide) (by decide)
  exact ⟨h.2.1 5000000 (by decide), h.2.2.1 (by decide)⟩

/-! ## Claim C2 — coded service / client-type labels -/

/-- C2 (counterexample): the claim asserts labels are appended exactly
when the coded cell literally equals `"Y"`, but the client-type loop
masks on `df[col] > 0`: a `5D1a` cell holding the number `5` (not
`"Y"`) gets the label appended. -/
theorem c2_counterexample :
    clientTypesAt ⟨["1A", "5D1a"], [[("1A", Cell.s "Acme"), ("5D1a", Cell.n 5)]]⟩ 0
        = "Individuals (non-high net worth)"
      ∧ cellEqY (getCell [("1A", Cell.s "Acme"), ("5D1a", Cell.n 5)] "5D1a")
        = false := by
  exact ⟨by decide, by decide⟩

/-- C2 (amended): for every table row, `services` is the comma-join,
in declared category order and without duplicates, of the labels of
present service columns whose cell literally equals `"Y"`; and
`client_types` is likewise the comma-join of the labels of present
client columns whose cell is a number `> 0` (not a literal `"Y"`
test). -/
theorem c2_amended (t : RawTable) (i : Nat) (hi : i < t.rows.length)
    (hbase : advSourceCols.any (t.cols.contains ·) = true) :
    servicesAt t i = pyJoin ", " (codedLabels t cellEqY i service_columns)
    ∧ clientTypesAt t i = pyJoin ", " (codedLabels t cellGtZero i client_columns)
    ∧ (codedLabels t cellEqY i service_columns).Nodup
    ∧ (codedLabels t cellGtZero i client_columns).Nodup
    ∧ (∀ cl ∈ service_columns, cl.2 ∈ codedLabels t cellEqY i service_columns ↔
        cl.1 ∈ t.cols ∧ rowCellIs t i cl.1 cellEqY = true)
    ∧ (∀ cl ∈ client_columns, cl.2 ∈ codedLabels t cellGtZero i client_columns ↔
        cl.1 ∈ t.cols ∧ rowCellIs t i cl.1 cellGtZero = true) := by
  have hlen : i < outLen t := by
    unfold outLen; rw [if_pos hbase]; exact hi
  have hs := codedLabels_spec t cellEqY i service_columns (by decide)
  have hc := codedLabels_spec t cellGtZero i client_columns (by decide)
  refine ⟨?_, ?_, hs.1, hc.1, hs.2, hc.2⟩
  · exact coded_foldl_eq_join t cellEqY i service_columns hlen (by decide)
  · exact coded_foldl_eq_join t cellGtZero i client_columns hlen (by decide)

/-- C2 (witness): the amended theorem applied at a one-row table with
`5G1 = "Y"`, `5G2 = "N"` and a positive `5D1a`. -/
theorem c2_witness :
    servicesAt ⟨["1A", "5G1", "5G2", "5D1a"],
        [[("1A", Cell.s "Acme"), ("5G1", Cell.s "Y"), ("5G2", Cell.s "N"),
          ("5D1a", Cell.n 2)]]⟩ 0
      = pyJoin ", " (codedLabels ⟨["1A", "5G1", "5G2", "5D1a"],
          [[("1A", Cell.s "Acme"), ("5G1", Cell.s "Y"), ("5G2", Cell.s "N"),
            ("5D1a", Cell.n 2)]]⟩ cellEqY 0 service_columns) := by
  exact (c2_amended ⟨["1A", "5G1", "5G2", "5D1a"],
      [[("1A", Cell.s "Acme"), ("5G1", Cell.s "Y"), ("5G2", Cell.s "N"),
        ("5D1a", Cell.n 2)]]⟩ 0 (by decide) (by decide)).1

/-! ## Claim C8 — address composition -/

/-- C8 (confirmed): when the street and city columns are present, the
canonical address is street-line-1 followed, only when street-line-2 is
non-empty, by a single space and street-line-2; an empty or NaN second
line contributes nothing (no stray space).  The two concrete examples
of the claim are included. -/
theorem c8_confirmed (t : RawTable) (r : RawRow)
    (h1 : "1F1-Street 1" ∈ t.cols) (hc : "1F1-City" ∈ t.cols)
    (h2 : "1F1-Street 2" ∈ t.cols) :
    (strCellD (getCell r "1F1-Street 2") = "" →
      addressOf t r = .val (strCellD (getCell r "1F1-Street 1")))
    ∧ (strCellD (getCell r "1F1-Street 2") ≠ "" →
      addressOf t r = .val (strCellD (getCell r "1F1-Street 1") ++ " "
        ++ strCellD (getCell r "1F1-Street 2")))
    ∧ addressOf ⟨["1F1-Street 1", "1F1-Street 2", "1F1-City"], []⟩
        [("1F1-Street 1", Cell.s "123 Main St"), ("1F1-Street 2", Cell.s "")]
        = .val "123 Main St"
    ∧ addressOf ⟨["1F1-Street 1", "1F1-Street 2", "1F1-City"], []⟩
        [("1F1-Street 1", Cell.s "123 Main St"),
         ("1F1-Street 2", Cell.s "Suite 4")]
        = .val "123 Main St Suite 4" := by
  refine ⟨?_, ?_, by decide, by decide⟩
  · intro h
    unfold addressOf
    rw [if_pos ⟨h1, hc⟩, if_pos h2]
    simp [h]
  · intro h
    unfold addressOf
    rw [if_pos ⟨h1, hc⟩, if_pos h2]
    simp [h, String.append_assoc]

/-- C8 (witness): the confirmed theorem applied at a concrete row with
an empty second street line. -/
theorem c8_witness :
    addressOf ⟨["1F1-Street 1", "1F1-Street 2", "1F1-City"], []⟩
        [("1F1-Street 1", Cell.s "123 Main St"), ("1F1-Street 2", Cell.null)]
      = .val "123 Main St" := by
  have h := c8_confirmed ⟨["1F1-Street 1", "1F1-Street 2", "1F1-City"], []⟩
    [("1F1-Street 1", Cell.s "123 Main St"), ("1F1-Street 2", Cell.null)]
    (by decide) (by decide) (by decide)
  exact h.1 (by decide)

/-! ## Claim C3 — matcher strategy order -/

/-- C3 (counterexample): the claim says the exact stage of the matcher
is numeric-identifier (CRD) equality.  In `match_firms_to_crd` the
analytical row carries no identifier at all and the exact stage
compares case-folded whole names: on this input the claim's strategies
would yield PARTIAL (the name contains the first token `"ACME"`, a
metacharacter-free pattern on which `literalSearch` agrees with
`re.search`), but the code returns an exact match. -/
theorem c3_counterexample :
    match_firms_to_crd_row literalSearch
        [⟨Cell.s "999", Cell.s "Acme Capital llc"⟩]
        (Cell.s "ACME CAPITAL LLC")
      = .ok (.exact ⟨Cell.s "999", Cell.s "Acme Capital llc"⟩)
    ∧ containsTok literalSearch (Cell.s "Acme Capital llc") "ACME" = true := by
  exact ⟨rfl, by decide⟩

/-- C3 (amended): each matcher applies its strategies in a fixed order
with the first success winning and each stage taking the first
qualifying candidate in the existing table's ordering, and falls
through to NONE — but the exact stage differs per script: in
`match_firms_to_existing` it is CRD equality in string form, while in
`match_firms_to_crd` it is case-insensitive whole-name equality (the
analytical table there has no identifier column).  The partial stage of
both is the `str.contains` regex test for the analytical name's first
upper-cased whitespace token; the characterization holds for every
realization `reSearch` of the regex engine (for metacharacter-free
tokens that test is plain substring containment).  The analytical firm
name is assumed to have a first whitespace token (otherwise the code
raises, see C6). -/
theorem c3_amended (reSearch : String → String → Bool)
    (ex : List ExRow) (fn crd tok : String)
    (htok : firstToken? (pyUpper fn) = some tok) :
    ((∀ e, match_firms_to_existing_row reSearch ex crd (Cell.s fn)
          = .ok (.exact e) ↔
        FirstWith (fun x => x.crd_number == Cell.s crd) ex e)
     ∧ (∀ e, match_firms_to_existing_row reSearch ex crd (Cell.s fn)
          = .ok (.partialM e) ↔
        (∀ x ∈ ex, (x.crd_number == Cell.s crd) = false)
          ∧ FirstWith (fun x => containsTok reSearch x.legal_name tok) ex e)
     ∧ (match_firms_to_existing_row reSearch ex crd (Cell.s fn) = .ok .noneM ↔
        (∀ x ∈ ex, (x.crd_number == Cell.s crd) = false)
          ∧ ∀ x ∈ ex, containsTok reSearch x.legal_name tok = false))
    ∧ ((∀ e, match_firms_to_crd_row reSearch ex (Cell.s fn) = .ok (.exact e) ↔
        FirstWith (fun x => upperCell x.legal_name == some (pyUpper fn)) ex e)
     ∧ (∀ e, match_firms_to_crd_row reSearch ex (Cell.s fn) = .ok (.partialM e) ↔
        (∀ x ∈ ex, (upperCell x.legal_name == some (pyUpper fn)) = false)
          ∧ FirstWith (fun x => containsTok reSearch x.legal_name tok) ex e)
     ∧ (match_firms_to_crd_row reSearch ex (Cell.s fn) = .ok .noneM ↔
        (∀ x ∈ ex, (upperCell x.legal_name == some (pyUpper fn)) = false)
          ∧ ∀ x ∈ ex, containsTok reSearch x.legal_name tok = false)) := by
  constructor
  · apply matchStage_spec ex _ _ _
    unfold match_firms_to_existing_row
    cases ex.find? (fun x => x.crd_number == Cell.s crd) with
    | some e => rfl
    | none =>
      show (match firstToken? (pyUpper fn) with
        | none => Except.error MatchErr.indexError
        | some tok =>
          match List.find? (fun e : ExRow => containsTok reSearch e.legal_name tok) ex with
          | some e => Except.ok (MatchOutcome.partialM e)
          | none => Except.ok MatchOutcome.noneM) = _
      rw [htok]
  · apply matchStage_spec ex _ _ _
    show (match List.find? (fun e : ExRow => upperCell e.legal_name == some (pyUpper fn)) ex with
      | some e => Except.ok (MatchOutcome.exact e)
      | none =>
        match firstToken? (pyUpper fn) with
        | none => Except.error MatchErr.indexError
        | some tok =>
          match List.find? (fun e : ExRow => containsTok reSearch e.legal_name tok) ex with
          | some e => Except.ok (MatchOutcome.partialM e)
          | none => Except.ok MatchOutcome.noneM) = _
    cases ex.find? (fun x => upperCell x.legal_name == some (pyUpper fn)) with
    | some e => rfl
    | none =>
      show (match firstToken? (pyUpper fn) with
        | none => Except.error MatchErr.indexError
        | some tok =>
          match List.find? (fun e : ExRow => containsTok reSearch e.legal_name tok) ex with
          | some e => Except.ok (MatchOutcome.partialM e)
          | none => Except.ok MatchOutcome.noneM) = _
      rw [htok]

/-- C3 (witness): the amended theorem applied to one existing profile
matched exactly by CRD. -/
theorem c3_witness :
    match_firms_to_existing_row literalSearch
        [⟨Cell.s "123", Cell.s "Acme Capital LLC"⟩]
        "123" (Cell.s "Acme Capital")
      = .ok (.exact ⟨Cell.s "123", Cell.s "Acme Capital LLC"⟩) := by
  have h := c3_amended literalSearch [⟨Cell.s "123", Cell.s "Acme Capital LLC"⟩]
    "Acme Capital" "123" "ACME" (by decide)
  exact (h.1.1 ⟨Cell.s "123", Cell.s "Acme Capital LLC"⟩).2
    ⟨[], [], rfl, by simp, by decide⟩

/-! ## Claim C6 — empty firm name -/

/-- C6 (code evaluated at the failing input): with an empty analytical
firm name and no candidate surviving the exact stage, both matchers
raise `IndexError` at `firm_name.upper().split()[0]` instead of
falling through to NONE as the spec states.  The failure occurs before
the regex containment test runs, so it holds for every realization
`reSearch` of the regex engine. -/
theorem c6_failing_eval (reSearch : String → String → Bool) :
    match_firms_to_crd_row reSearch
        [⟨Cell.s "123", Cell.s "Acme Capital LLC"⟩]
        (Cell.s "") = .error .indexError
    ∧ match_firms_to_existing_row reSearch
        [⟨Cell.s "123", Cell.s "Acme Capital LLC"⟩]
        "999" (Cell.s "") = .error .indexError
    ∧ match_firms_to_crd_row reSearch
        [⟨Cell.s "123", Cell.s "Acme Capital LLC"⟩]
        Cell.null = .error .attributeError := by
  exact ⟨rfl, rfl, rfl⟩

/-! ## Claim C10 — matcher frame effect -/

/-- C10 (counterexample): `match_firms_to_existing` overwrites the
`crd_number` column of its input tables with `.astype(str)` conversions
before matching: an existing table holding the number `123` comes back
holding the string `"123"` — the input table is changed. -/
theorem c10_counterexample :
    (match_firms_to_existing literalSearch [] [⟨Cell.n 123, Cell.s "Acme"⟩]).2.2
        = [⟨Cell.s "123", Cell.s "Acme"⟩]
    ∧ (match_firms_to_existing literalSearch [] [⟨Cell.n 123, Cell.s "Acme"⟩]).2.2
        ≠ [⟨Cell.n 123, Cell.s "Acme"⟩] := by
  exact ⟨by decide, by decide⟩

/-- C10 (amended): `match_firms_to_crd` is pure — it returns both input
tables unchanged; `match_firms_to_existing` is pure except that it
converts the `crd_number` column of both input tables to strings in
place (all other fields of every row are preserved, and no other
mutation occurs); both matchers only report their per-row results,
which callers persist separately. -/
theorem c10_amended (reSearch : String → String → Bool)
    (analysis : List Cell) (pf : List PfRow) (ex : List ExRow) :
    ((match_firms_to_crd reSearch analysis ex).2.1 = analysis
      ∧ (match_firms_to_crd reSearch analysis ex).2.2 = ex)
    ∧ ((match_firms_to_existing reSearch pf ex).2.1
          = pf.map (fun p => { p with crd_number := astypeStr p.crd_number })
      ∧ (match_firms_to_existing reSearch pf ex).2.2
          = ex.map (fun e => { e with crd_number := astypeStr e.crd_number })
      ∧ (∀ p ∈ (match_firms_to_existing reSearch pf ex).2.1, ∃ q ∈ pf,
          p.firm_name = q.firm_name ∧ p.crd_number = astypeStr q.crd_number)
      ∧ (∀ e ∈ (match_firms_to_existing reSearch pf ex).2.2, ∃ f ∈ ex,
          e.legal_name = f.legal_name ∧ e.crd_number = astypeStr f.crd_number)) := by
  refine ⟨⟨rfl, rfl⟩, rfl, rfl, ?_, ?_⟩
  · intro p hp
    rcases List.mem_map.1 hp with ⟨q, hq, rfl⟩
    exact ⟨q, hq, rfl, rfl⟩
  · intro e he
    rcases List.mem_map.1 he with ⟨f, hf, rfl⟩
    exact ⟨f, hf, rfl, rfl⟩

/-! ## Claim C4 — batch failure fallback -/

/-- C4 (counterexample): the filings insert loop has no per-record
fallback: with a store that rejects the two-record batch but would
accept each record alone, nothing is committed — the non-failing
record is lost too, contradicting the claim that only the specific
failing record(s) are lost. -/
theorem c4_counterexample :
    load_filings_committed (fun l => decide (l.length ≤ 1))
        [⟨1, 100, 5, .noneV, .noneV⟩, ⟨2, 200, 6, .noneV, .noneV⟩] = []
    ∧ (fun l : List Filing => decide (l.length ≤ 1))
        [⟨2, 200, 6, .noneV, .noneV⟩] = true := by
  exact ⟨rfl, rfl⟩

/-- C4 (amended): only the advisers loader falls back to per-record
submission — an adviser record is committed iff its batch call or its
own individual call succeeds, so an individual failure is isolated and
never aborts the rest; the filings and narratives loaders have no
fallback: a record is committed iff its whole batch call succeeds, so
a failed batch loses every record in it (the error is only logged, and
later batches still proceed). -/
theorem c4_amended (okA : List Adviser → Bool) (advs : List Adviser)
    (okF : List Filing → Bool) (fils : List Filing)
    (okN : List NarrRec → Bool) (narrs : List NarrRec) :
    (∀ r, r ∈ load_advisers_committed okA advs ↔
        ∃ b ∈ chunksOf 500 advs, r ∈ b ∧ (okA b = true ∨ okA [r] = true))
    ∧ (∀ r, r ∈ load_filings_committed okF fils ↔
        ∃ b ∈ chunksOf 500 fils, okF b = true ∧ r ∈ b)
    ∧ (∀ r, r ∈ load_narratives_committed okN narrs ↔
        ∃ b ∈ chunksOf 250 narrs, okN b = true ∧ r ∈ b) := by
  refine ⟨?_, ?_, ?_⟩
  · intro r
    unfold load_advisers_committed
    rw [List.mem_flatten]
    constructor
    · rintro ⟨l, hl, hrl⟩
      rcases List.mem_map.1 hl with ⟨b, hb, rfl⟩
      refine ⟨b, hb, ?_⟩
      unfold upsertBatchResult at hrl
      by_cases hok : okA b = true
      · rw [if_pos hok] at hrl
        exact ⟨hrl, Or.inl hok⟩
      · rw [if_neg hok] at hrl
        rcases List.mem_filter.1 hrl with ⟨hrb, hsing⟩
        exact ⟨hrb, Or.inr hsing⟩
    · rintro ⟨b, hb, hrb, hcase⟩
      refine ⟨upsertBatchResult okA b, List.mem_map_of_mem _ hb, ?_⟩
      unfold upsertBatchResult
      by_cases hok : okA b = true
      · rw [if_pos hok]; exact hrb
      · rw [if_neg hok]
        rcases hcase with h | h
        · exact absurd h hok
        · exact List.mem_filter.2 ⟨hrb, h⟩
  · intro r
    unfold load_filings_committed
    rw [List.mem_flatten]
    constructor
    · rintro ⟨l, hl, hrl⟩
      rcases List.mem_map.1 hl with ⟨b, hb, rfl⟩
      unfold insertBatchResult at hrl
      by_cases hok : okF b = true
      · rw [if_pos hok] at hrl
        exact ⟨b, hb, hok, hrl⟩
      · rw [if_neg hok] at hrl
        cases hrl
    · rintro ⟨b, hb, hok, hrb⟩
      refine ⟨insertBatchResult okF b, List.mem_map_of_mem _ hb, ?_⟩
      unfold insertBatchResult
      rw [if_pos hok]; exact hrb
  · intro r
    unfold load_narratives_committed
    rw [List.mem_flatten]
    constructor
    · rintro ⟨l, hl, hrl⟩
      rcases List.mem_map.1 hl with ⟨b, hb, rfl⟩
      unfold insertBatchResult at hrl
      by_cases hok : okN b = true
      · rw [if_pos hok] at hrl
        exact ⟨b, hb, hok, hrl⟩
      · rw [if_neg hok] at hrl
        cases hrl
    · rintro ⟨b, hb, hok, hrb⟩
      refine ⟨insertBatchResult okN b, List.mem_map_of_mem _ hb, ?_⟩
      unfold insertBatchResult
      rw [if_pos hok]; exact hrb

/-! ## Claim C5 — at most one filing per adviser -/

/-- Mapping a `filterMap` whose results carry the image of the key is a
sublist of mapping the key list. -/
theorem filterMap_map_sublist {g : α → Option β} {f : β → γ} {h : α → γ}
    (hc : ∀ a b, g a = some b → f b = h a) :
    ∀ l : List α, ((l.filterMap g).map f).Sublist (l.map h) := by
  intro l
  induction l with
  | nil => simp
  | cons a l ih =>
    rw [List.filterMap_cons, List.map_cons]
    cases hg : g a with
    | none => exact ih.cons (h a)
    | some b =>
      rw [List.map_cons, hc a b hg]
      exact ih.cons₂ (h a)

/-- Every candidate filing's foreign key comes from its `adviser_map`
entry. -/
theorem filings_data_fk_sublist (df : List ProfRow)
    (amap : List (PyVal × Nat)) (uadv : List Adviser) :
    ((filings_data df amap uadv).map Filing.adviser_fk).Sublist
      (amap.map Prod.snd) := by
  apply filterMap_map_sublist
  intro ck f hck
  unfold filing_candidate at hck
  rcases Option.bind_eq_some.1 hck with ⟨ainfo, -, hmap⟩
  rcases Option.map_eq_some'.1 hmap with ⟨row, -, hf⟩
  rw [← hf]

/-- C5 (confirmed): a filing candidate survives the `new_filings`
filter only when the remote store holds no filing for its adviser;
within one run at most one filing per adviser is built (given the
store-assigned primary keys in `adviser_map` are distinct, as primary
keys are); and a re-run against the store augmented with the first
run's inserts inserts nothing — updated AUM numbers never create a
second filing row. -/
theorem c5_confirmed (df : List ProfRow) (amap : List (PyVal × Nat))
    (uadv : List Adviser) (store : List Nat)
    (hinj : (amap.map Prod.snd).Nodup) :
    (∀ f ∈ new_filings (filings_data df amap uadv) store, f.adviser_fk ∉ store)
    ∧ ((new_filings (filings_data df amap uadv) store).map Filing.adviser_fk).Nodup
    ∧ new_filings (filings_data df amap uadv)
        (store ++ (new_filings (filings_data df amap uadv) store).map
          Filing.adviser_fk) = [] := by
  refine ⟨?_, ?_, ?_⟩
  · intro f hf
    unfold new_filings at hf
    have h := (List.mem_filter.1 hf).2
    simpa using h
  · exact (hinj.sublist (filings_data_fk_sublist df amap uadv)).sublist
      ((List.filter_sublist _).map Filing.adviser_fk)
  · unfold new_filings
    rw [List.filter_eq_nil_iff]
    intro f hf
    simp only [decide_eq_true_eq, not_not, List.contains_eq_any_beq,
      List.any_eq_true, beq_iff_eq, List.mem_append]
    by_cases hs : f.adviser_fk ∈ store
    · exact ⟨f.adviser_fk, Or.inl hs, rfl⟩
    · refine ⟨f.adviser_fk, Or.inr ?_, rfl⟩
      apply List.mem_map_of_mem Filing.adviser_fk
      apply List.mem_filter.2
      refine ⟨hf, ?_⟩
      simpa using hs

/-- C5 (witness): the confirmed theorem applied to one profile row, one
adviser-map entry and an empty store: the second (re-)run inserts
nothing. -/
theorem c5_witness :
    new_filings
        (filings_data [{ firm_name := Cell.s "Acme", sec_number := Cell.s "801-1" }]
          [(PyVal.str "801-1", 10)]
          [{ cik := PyVal.str "801-1", legal_name := PyVal.str "Acme" }])
        ([] ++ (new_filings
          (filings_data [{ firm_name := Cell.s "Acme", sec_number := Cell.s "801-1" }]
            [(PyVal.str "801-1", 10)]
            [{ cik := PyVal.str "801-1", legal_name := PyVal.str "Acme" }])
          []).map Filing.adviser_fk) = [] :=
  (c5_confirmed [{ firm_name := Cell.s "Acme", sec_number := Cell.s "801-1" }]
    [(PyVal.str "801-1", 10)]
    [{ cik := PyVal.str "801-1", legal_name := PyVal.str "Acme" }]
    [] (by decide)).2.2

/-! ## Claim C7 — positional narrative pairing -/

/-- Appending on the right preserves the head of a non-empty list. -/
theorem head?_append_singleton (l : List α) (x : α) (h : l ≠ []) :
    (l ++ [x]).head? = l.head? := by
  cases l with
  | nil => exact absurd rfl h
  | cons a t => rfl

/-- The narrative-pairing fold only appends on the right: the first
accumulated record survives. -/
theorem narrPairStep_foldl_head (amap : List (PyVal × Nat))
    (fmap : List (Nat × Nat)) :
    ∀ (pairs : List (NarrJson × ProfRow)) (acc : List NarrRec × Nat),
      acc.1 ≠ [] →
      (pairs.foldl (narrPairStep amap fmap) acc).1.head? = acc.1.head? := by
  intro pairs
  induction pairs with
  | nil => intro acc _; rfl
  | cons p rest ih =>
    intro acc hacc
    rw [List.foldl_cons]
    have hne : (narrPairStep amap fmap acc p).1 ≠ []
        ∧ (narrPairStep amap fmap acc p).1.head? = acc.1.head? := by
      unfold narrPairStep
      split
      · split
        · constructor
          · simp
          · exact head?_append_singleton acc.1 _ hacc
        · exact ⟨hacc, rfl⟩
      · exact ⟨hacc, rfl⟩
    rw [ih _ hne.1, hne.2]

/-- Pointwise-equal fold functions fold equal. -/
theorem foldl_congr_fun {f g : β → α → β} (hfg : ∀ b a, f b a = g b a) :
    ∀ (l : List α) (b : β), l.foldl f b = l.foldl g b := by
  intro l
  induction l with
  | nil => intro b; rfl
  | cons a t ih =>
    intro b
    rw [List.foldl_cons, List.foldl_cons, hfg, ih]

/-- C7 (counterexample): the claim says the builder skips rows whose
`crd_number` is missing; but a NaN `crd_number` is truthy in Python, so
a profile row with a missing CRD and a non-empty narrative is emitted
(rendered as `"nan"`), not skipped. -/
theorem c7_counterexample :
    (buildProfileNarratives [{ firm_name := Cell.s "Acme Advisors" }]).length = 1
    ∧ ({ firm_name := Cell.s "Acme Advisors" } : ProfRow).crd_number
        = Cell.null := by
  exact ⟨rfl, rfl⟩

/-- C7 (amended): the loader pairs narratives to advisers positionally,
with the foreign keys recomputed from the same-index profile row and
the narrative's own `crd_number` ignored (erasing it changes nothing);
when the builder keeps every row the pairing is index-correct; the
builder skips a row exactly when its rendered narrative is empty or its
`crd_number` is falsy (a NaN `crd_number` is truthy and kept) — and
when the first row is skipped and the second kept, the narrative built
from the second row is paired with the keys recomputed from the first
row. -/
theorem c7_amended (r0 r1 : ProfRow) (rest : List ProfRow)
    (amap : List (PyVal × Nat)) (fmap : List (Nat × Nat))
    (ap : PyVal × Nat) (fp : Nat × Nat)
    (hskip : ¬(build_narrative r0 ≠ "" ∧ r0.crd_number.truthy = true))
    (hkeep : build_narrative r1 ≠ "" ∧ r1.crd_number.truthy = true)
    (hamap : amap.find? (fun p => p.1 == cikOfRow r0) = some ap)
    (hfmap : fmap.find? (fun q => q.1 == ap.2) = some fp) :
    (∀ (narrs : List NarrJson) (df : List ProfRow)
        (am : List (PyVal × Nat)) (fm : List (Nat × Nat)),
      load_narratives_data
          (narrs.map fun nj => { nj with crd_number := "" }) df am fm
        = load_narratives_data narrs df am fm)
    ∧ (∀ df : List ProfRow,
        (∀ row ∈ df, build_narrative row ≠ "" ∧ row.crd_number.truthy = true) →
        (buildProfileNarratives df).length = df.length)
    ∧ (buildProfileNarratives (r0 :: r1 :: rest)).head?
        = some ⟨r1.crd_number.pyStr, build_narrative r1, "ria_profile"⟩
    ∧ (load_narratives_data (buildProfileNarratives (r0 :: r1 :: rest))
          (r0 :: r1 :: rest) amap fmap).1.head?
        = some ⟨ap.2, fp.2, "profile", build_narrative r1, "ria_profile"⟩ := by
  have hbuild : buildProfileNarratives (r0 :: r1 :: rest)
      = (⟨r1.crd_number.pyStr, build_narrative r1, "ria_profile"⟩ : NarrJson)
        :: buildProfileNarratives rest := by
    unfold buildProfileNarratives
    rw [List.filterMap_cons, List.filterMap_cons]
    simp only []
    rw [if_neg hskip, if_pos hkeep]
  refine ⟨?_, ?_, ?_, ?_⟩
  · intro narrs df am fm
    unfold load_narratives_data
    rw [List.zip_map_left, List.foldl_map]
    exact foldl_congr_fun (fun b a => rfl) _ _
  · intro df hall
    induction df with
    | nil => rfl
    | cons row rest' ih =>
      have hrow := hall row (List.mem_cons_self row rest')
      unfold buildProfileNarratives
      rw [List.filterMap_cons]
      simp only []
      rw [if_pos hrow]
      unfold buildProfileNarratives at ih
      rw [List.length_cons, List.length_cons,
        ih (fun r hr => hall r (List.mem_cons_of_mem row hr))]
  · rw [hbuild]; rfl
  · rw [hbuild]
    unfold load_narratives_data
    rw [List.zip_cons_cons, List.foldl_cons]
    have hstep : narrPairStep amap fmap ([], 0)
        (⟨r1.crd_number.pyStr, build_narrative r1, "ria_profile"⟩, r0)
        = ([⟨ap.2, fp.2, "profile", build_narrative r1, "ria_profile"⟩], 0) := by
      unfold narrPairStep
      simp only [hamap, hfmap]
      rfl
    rw [hstep]
    rw [narrPairStep_foldl_head amap fmap _ _ (by simp)]
    rfl

/-- C7 (witness): the amended theorem applied to a two-row table whose
first row renders an empty narrative (all fields falsy) and whose
second row is kept: the first emitted narrative is the second row's,
yet it is paired with the keys recomputed from the first row. -/
theorem c7_witness :
    (load_narratives_data
        (buildProfileNarratives
          [{ firm_name := Cell.s "", city := Cell.s "", state := Cell.s "",
             zip_code := Cell.s "", address := Cell.s "", crd_number := Cell.s "",
             sec_number := Cell.s "", aum := Cell.n 0, employee_count := Cell.n 0,
             services := Cell.s "", client_types := Cell.s "" },
           { firm_name := Cell.s "Beta Partners", crd_number := Cell.n 7 }])
        [{ firm_name := Cell.s "", city := Cell.s "", state := Cell.s "",
           zip_code := Cell.s "", address := Cell.s "", crd_number := Cell.s "",
           sec_number := Cell.s "", aum := Cell.n 0, employee_count := Cell.n 0,
           services := Cell.s "", client_types := Cell.s "" },
         { firm_name := Cell.s "Beta Partners", crd_number := Cell.n 7 }]
        [(PyVal.str "GEN_||", 42)] [(42, 9)]).1.head?
      = some ⟨42, 9, "profile",
          build_narrative { firm_name := Cell.s "Beta Partners",
                            crd_number := Cell.n 7 }, "ria_profile"⟩ := by
  have h := c7_amended
    { firm_name := Cell.s "", city := Cell.s "", state := Cell.s "",
      zip_code := Cell.s "", address := Cell.s "", crd_number := Cell.s "",
      sec_number := Cell.s "", aum := Cell.n 0, employee_count := Cell.n 0,
      services := Cell.s "", client_types := Cell.s "" }
    { firm_name := Cell.s "Beta Partners", crd_number := Cell.n 7 }
    [] [(PyVal.str "GEN_||", 42)] [(42, 9)] (PyVal.str "GEN_||", 42) (42, 9)
    (by intro hc; exact hc.1 rfl) (by constructor <;> decide)
    (by rfl) (by rfl)
  exact h.2.2.2

/-! ## Claim C9 — double periods in narratives -/

/-- Dropping the head preserves double-dot-freedom. -/
theorem hasDD_tail {x : Char} {l : List Char} (h : hasDD (x :: l) = false) :
    hasDD l = false := by
  cases l with
  | nil => rfl
  | cons b r =>
    have h' : (((x == '.') && (b == '.')) || hasDD (b :: r)) = false := h
    exact (Bool.or_eq_false_iff.mp h').2

/-- Dropping the head preserves triple-dot-freedom. -/
theorem hasTriple_tail {x : Char} {l : List Char} (h : hasTriple (x :: l) = false) :
    hasTriple l = false := by
  cases l with
  | nil => rfl
  | cons b r =>
    cases r with
    | nil => rfl
    | cons c r' =>
      have h' : (((x == '.') && (b == '.') && (c == '.'))
          || hasTriple (b :: c :: r')) = false := h
      exact (Bool.or_eq_false_iff.mp h').2

/-- A non-dot head cannot create a double dot. -/
theorem hasDD_cons_of_ne {c : Char} {l : List Char} (hc : (c == '.') = false)
    (hl : hasDD l = false) : hasDD (c :: l) = false := by
  cases l with
  | nil => rfl
  | cons b r =>
    show (((c == '.') && (b == '.')) || hasDD (b :: r)) = false
    rw [hc]
    simpa using hl

/-- A non-dot head cannot create a triple dot. -/
theorem hasTriple_cons_of_ne {c : Char} {l : List Char} (hc : (c == '.') = false)
    (hl : hasTriple l = false) : hasTriple (c :: l) = false := by
  cases l with
  | nil => rfl
  | cons b r =>
    cases r with
    | nil => rfl
    | cons d r' =>
      show (((c == '.') && (b == '.') && (d == '.'))
          || hasTriple (b :: d :: r')) = false
      rw [hc]
      simpa using hl

/-- A non-dot second character cannot create a triple dot. -/
theorem hasTriple_cons_cons_of_ne {a b : Char} {l : List Char}
    (hb : (b == '.') = false) (hl : hasTriple (b :: l) = false) :
    hasTriple (a :: b :: l) = false := by
  cases l with
  | nil => rfl
  | cons c r =>
    show (((a == '.') && (b == '.') && (c == '.'))
        || hasTriple (b :: c :: r)) = false
    rw [hb]
    simpa using hl

/-- The double-period replacement pass preserves the head character. -/
theorem replaceDD_head? : ∀ l : List Char, (replaceDD l).head? = l.head? := by
  intro l
  cases l with
  | nil => rfl
  | cons a t =>
    cases t with
    | nil => rfl
    | cons b r =>
      show (if a = '.' ∧ b = '.' then '.' :: replaceDD r
            else a :: replaceDD (b :: r)).head? = some a
      by_cases hab : a = '.' ∧ b = '.'
      · rw [if_pos hab]
        simp [hab.1]
      · rw [if_neg hab]
        rfl

/-- Core of the C9 correction: on a string with no three consecutive
periods, one pass of `replace("..", ".")` leaves no `".."`. -/
theorem replaceDD_no_dd : ∀ l : List Char,
    hasTriple l = false → hasDD (replaceDD l) = false
  | [] => fun _ => rfl
  | [_] => fun _ => rfl
  | a :: b :: r => fun h => by
    by_cases hab : a = '.' ∧ b = '.'
    · have hgoal : replaceDD (a :: b :: r) = '.' :: replaceDD r := by
        show (if a = '.' ∧ b = '.' then '.' :: replaceDD r
              else a :: replaceDD (b :: r)) = '.' :: replaceDD r
        rw [if_pos hab]
      rw [hgoal]
      cases r with
      | nil => rfl
      | cons c r' =>
        have hc : (c == '.') = false := by
          have h' : (((a == '.') && (b == '.') && (c == '.'))
              || hasTriple (b :: c :: r')) = false := h
          have h1 := (Bool.or_eq_false_iff.mp h').1
          rw [hab.1, hab.2] at h1
          simpa using h1
        have hdd : hasDD (replaceDD (c :: r')) = false :=
          replaceDD_no_dd (c :: r') (hasTriple_tail (hasTriple_tail h))
        have hh := replaceDD_head? (c :: r')
        cases hm : replaceDD (c :: r') with
        | nil => rfl
        | cons x m =>
          rw [hm] at hh hdd
          have hxc : x = c := by
            have : some x = some c := hh
            exact Option.some_inj.mp this
          show ((('.' : Char) == '.') && (x == '.') || hasDD (x :: m)) = false
          rw [hxc, hc]
          rw [hxc] at hdd
          simpa using hdd
    · have hgoal : replaceDD (a :: b :: r) = a :: replaceDD (b :: r) := by
        show (if a = '.' ∧ b = '.' then '.' :: replaceDD r
              else a :: replaceDD (b :: r)) = a :: replaceDD (b :: r)
        rw [if_neg hab]
      rw [hgoal]
      have hdd : hasDD (replaceDD (b :: r)) = false :=
        replaceDD_no_dd (b :: r) (hasTriple_tail h)
      by_cases ha : a = '.'
      · have hb : (b == '.') = false := by
          rw [beq_eq_false_iff_ne]
          intro hbcon
          exact hab ⟨ha, hbcon⟩
        have hh := replaceDD_head? (b :: r)
        cases hm : replaceDD (b :: r) with
        | nil => rfl
        | cons x m =>
          rw [hm] at hh hdd
          have hxb : x = b := by
            have : some x = some b := hh
            exact Option.some_inj.mp this
          show (((a == '.') && (x == '.')) || hasDD (x :: m)) = false
          rw [hxb, hb]
          rw [hxb] at hdd
          simpa using hdd
      · have ha' : (a == '.') = false := by
          rw [beq_eq_false_iff_ne]; exact ha
        exact hasDD_cons_of_ne ha' hdd

/-- `String.toList` distributes over append. -/
theorem toList_append (a b : String) : (a ++ b).toList = a.toList ++ b.toList :=
  String.data_append a b

/-- A list of non-dot characters has no double dot. -/
theorem noDot_hasDD : ∀ l : List Char,
    (∀ c ∈ l, (c == '.') = false) → hasDD l = false
  | [] => fun _ => rfl
  | c :: l => fun h =>
    hasDD_cons_of_ne (h c (List.mem_cons_self c l))
      (noDot_hasDD l fun d hd => h d (List.mem_cons_of_mem c hd))

/-- Double-dot-freedom is preserved by append when the seam does not
put two dots together. -/
theorem hasDD_append : ∀ (x y : List Char), hasDD x = false → hasDD y = false →
    (x.getLast? = some '.' → y.head? = some '.' → False) →
    hasDD (x ++ y) = false
  | [], _ => fun _ hy _ => hy
  | [c], y => fun _ hy hb => by
    cases y with
    | nil => rfl
    | cons d y' =>
      show (((c == '.') && (d == '.')) || hasDD (d :: y')) = false
      by_cases hc : c = '.'
      · by_cases hd : d = '.'
        · subst hc; subst hd
          exact absurd (hb rfl rfl) (fun f => f)
        · have hd' : (d == '.') = false := by
            rw [beq_eq_false_iff_ne]; exact hd
          rw [hd']
          simpa using hy
      · have hc' : (c == '.') = false := by
          rw [beq_eq_false_iff_ne]; exact hc
        rw [hc']
        simpa using hy
  | a :: b :: r, y => fun hx hy hb => by
    show (((a == '.') && (b == '.')) || hasDD ((b :: r) ++ y)) = false
    have h1 : ((a == '.') && (b == '.')) = false := by
      have h' : (((a == '.') && (b == '.')) || hasDD (b :: r)) = false := hx
      exact (Bool.or_eq_false_iff.mp h').1
    rw [h1]
    have h2 := hasDD_append (b :: r) y (hasDD_tail hx) hy (by
      intro hl hyh
      exact hb (by rw [List.getLast?_cons_cons]; exact hl) hyh)
    simpa using h2

/-- Appending a single period to a double-dot-free string yields no
triple dot. -/
theorem hasTriple_append_dot : ∀ x : List Char,
    hasDD x = false → hasTriple (x ++ ['.']) = false
  | [] => fun _ => rfl
  | [_] => fun _ => rfl
  | a :: b :: r => fun h => by
    have h1 : ((a == '.') && (b == '.')) = false := by
      have h' : (((a == '.') && (b == '.')) || hasDD (b :: r)) = false := h
      exact (Bool.or_eq_false_iff.mp h').1
    have h2 := hasTriple_append_dot (b :: r) (hasDD_tail h)
    cases r with
    | nil =>
      show (((a == '.') && (b == '.') && ('.' == '.'))
          || hasTriple (b :: ['.'])) = false
      rw [h1]
      simpa using h2
    | cons c r' =>
      show (((a == '.') && (b == '.') && (c == '.'))
          || hasTriple ((b :: c :: r') ++ ['.'])) = false
      rw [h1]
      simpa using h2

/-- Joining a double-dot-free string to a triple-dot-free tail through
the `". "` seam yields no triple dot. -/
theorem hasTriple_sep : ∀ (x m : List Char), hasDD x = false →
    hasTriple m = false → hasTriple (x ++ '.' :: ' ' :: m) = false
  | [], m => fun _ hm => by
    cases m with
    | nil => rfl
    | cons c m' =>
      show ((('.' == '.') && (' ' == '.') && (c == '.'))
          || hasTriple (' ' :: c :: m')) = false
      have hsp : ((' ' : Char) == '.') = false := by decide
      have h2 : hasTriple (' ' :: c :: m') = false :=
        hasTriple_cons_of_ne hsp hm
      rw [h2]
      simp
  | [b], m => fun _ hm => by
    have h2 := hasTriple_sep [] m rfl hm
    show (((b == '.') && ('.' == '.') && (' ' == '.'))
        || hasTriple ('.' :: ' ' :: m)) = false
    have h2' : hasTriple ('.' :: ' ' :: m) = false := h2
    rw [h2']
    simp
  | a :: b :: r, m => fun hx hm => by
    have h1 : ((a == '.') && (b == '.')) = false := by
      have h' : (((a == '.') && (b == '.')) || hasDD (b :: r)) = false := hx
      exact (Bool.or_eq_false_iff.mp h').1
    have h2 := hasTriple_sep (b :: r) m (hasDD_tail hx) hm
    cases r with
    | nil =>
      show (((a == '.') && (b == '.') && ('.' == '.'))
          || hasTriple (b :: '.' :: ' ' :: m)) = false
      rw [h1]
      simpa using h2
    | cons c r' =>
      show (((a == '.') && (b == '.') && (c == '.'))
          || hasTriple ((b :: c :: r') ++ '.' :: ' ' :: m)) = false
      rw [h1]
      simpa using h2

/-- The full narrative skeleton — clauses joined with `". "` plus the
final period — has no triple dot when every clause is double-dot
free. -/
theorem pyJoin_dot_triple_free : ∀ ps : List String,
    (∀ p ∈ ps, hasDD p.toList = false) →
    hasTriple ((pyJoin ". " ps).toList ++ ['.']) = false
  | [] => fun _ => rfl
  | [p] => fun h =>
    hasTriple_append_dot p.toList (h p (List.mem_cons_self p []))
  | p :: q :: qs => fun h => by
    have hp : hasDD p.toList = false := h p (List.mem_cons_self _ _)
    have hrest : hasTriple ((pyJoin ". " (q :: qs)).toList ++ ['.']) = false :=
      pyJoin_dot_triple_free (q :: qs) fun x hx => h x (List.mem_cons_of_mem _ hx)
    have hchars : (pyJoin ". " (p :: q :: qs)).toList ++ ['.']
        = p.toList ++ '.' :: ' ' :: ((pyJoin ". " (q :: qs)).toList ++ ['.']) := by
      show ((p ++ ". " ++ pyJoin ". " (q :: qs)).toList ++ ['.']) = _
      rw [toList_append, toList_append, List.append_assoc, List.append_assoc]
      rfl
    rw [hchars]
    exact hasTriple_sep p.toList _ hp hrest

/-- Digit characters are never periods. -/
theorem digitCharOf_ne_dot (d : Nat) : (digitCharOf d == '.') = false := by
  unfold digitCharOf
  split <;> decide

/-- Rendered decimal digits contain no period. -/
theorem natDigitsAux_not_dot : ∀ (fuel n : Nat),
    ∀ c ∈ natDigitsAux fuel n, (c == '.') = false := by
  intro fuel
  induction fuel with
  | zero => intro n c hc; cases hc
  | succ f ih =>
    intro n c hc
    unfold natDigitsAux at hc
    by_cases h : n < 10
    · rw [if_pos h] at hc
      rw [List.mem_singleton.1 hc]
      exact digitCharOf_ne_dot n
    · rw [if_neg h] at hc
      rcases List.mem_append.1 hc with h1 | h2
      · exact ih (n / 10) c h1
      · rw [List.mem_singleton.1 h2]
        exact digitCharOf_ne_dot (n % 10)

/-- Python's rendering of an integer contains no period. -/
theorem pyIntStr_not_dot (v : Int) :
    ∀ c ∈ (pyIntStr v).toList, (c == '.') = false := by
  intro c hc
  unfold pyIntStr at hc
  have hc' : c ∈ (if v < 0 then ['-'] else []) ++ natDigits v.natAbs := hc
  rcases List.mem_append.1 hc' with h1 | h2
  · by_cases hv : v < 0
    · rw [if_pos hv] at h1
      rw [List.mem_singleton.1 h1]
      decide
    · rw [if_neg hv] at h1
      cases h1
  · exact natDigitsAux_not_dot _ _ c h2

/-- Regrouping digits inserts only commas. -/
theorem chunk3rev_mem : ∀ (l : List Char) (c : Char),
    c ∈ chunk3rev l → c ∈ l ∨ c = ','
  | a :: b :: d :: e :: rest, c => fun hc => by
    have hc' : c ∈ a :: b :: d :: ',' :: chunk3rev (e :: rest) := hc
    simp only [List.mem_cons] at hc'
    rcases hc' with rfl | rfl | rfl | rfl | h
    · exact Or.inl (by simp)
    · exact Or.inl (by simp)
    · exact Or.inl (by simp)
    · exact Or.inr rfl
    · rcases chunk3rev_mem (e :: rest) c h with hm | hm
      · exact Or.inl (by simp [List.mem_cons] at hm ⊢; tauto)
      · exact Or.inr hm
  | [], _ => fun hc => Or.inl hc
  | [a], _ => fun hc => Or.inl hc
  | [a, b], _ => fun hc => Or.inl hc
  | [a, b, d], _ => fun hc => Or.inl hc

/-- The thousands-separated rendering contains no period. -/
theorem pyGroupNat_not_dot (m : Nat) :
    ∀ c ∈ (pyGroupNat m).toList, (c == '.') = false := by
  intro c hc
  unfold pyGroupNat at hc
  have hc' : c ∈ (chunk3rev (natDigits m).reverse).reverse := hc
  have hc2 := List.mem_reverse.1 hc'
  rcases chunk3rev_mem _ c hc2 with hm | hm
  · exact natDigitsAux_not_dot _ _ c (List.mem_reverse.1 hm)
  · rw [hm]; decide

/-- The one-decimal formatting has no double dot (its single period is
flanked by digits). -/
theorem fmtScaled1_noDD (v scale : Int) :
    hasDD (fmtScaled1 v scale).toList = false := by
  unfold fmtScaled1
  rw [toList_append, toList_append]
  have hx : hasDD (pyIntStr ((10 * v + scale / 2) / scale / 10)).toList = false :=
    noDot_hasDD _ (pyIntStr_not_dot _)
  have hstep1 : hasDD ((pyIntStr ((10 * v + scale / 2) / scale / 10)).toList
      ++ ("." : String).toList) = false := by
    apply hasDD_append _ _ hx (by decide)
    intro hl _
    have hmem := List.mem_of_mem_getLast? (by rw [hl]; rfl)
    have := pyIntStr_not_dot ((10 * v + scale / 2) / scale / 10) '.' hmem
    simp at this
  refine hasDD_append _ _ hstep1 ?_ ?_
  · rfl
  intro _ hh
  have : (String.singleton (digitCharOf ((10 * v + scale / 2) / scale % 10).toNat)).toList.head?
      = some (digitCharOf ((10 * v + scale / 2) / scale % 10).toNat) := rfl
  rw [this] at hh
  have hd := digitCharOf_ne_dot ((10 * v + scale / 2) / scale % 10).toNat
  rw [Option.some_inj.mp hh] at hd
  simp at hd

/-- The AUM phrasing has no double dot. -/
theorem aumStrOf_noDD (v : Int) : hasDD (aumStrOf v).toList = false := by
  unfold aumStrOf
  by_cases h1 : v ≥ 1000000000
  · rw [if_pos h1, toList_append, toList_append]
    have hfmt := fmtScaled1_noDD v 1000000000
    have hx : hasDD (("$" : String).toList ++ (fmtScaled1 v 1000000000).toList)
        = false := by
      apply hasDD_append _ _ (by decide) hfmt
      intro hl _
      exact absurd hl (by decide)
    apply hasDD_append _ _ hx (by decide)
    intro _ hh
    exact absurd hh (by decide)
  · rw [if_neg h1]
    by_cases h2 : v ≥ 1000000
    · rw [if_pos h2, toList_append, toList_append]
      have hfmt := fmtScaled1_noDD v 1000000
      have hx : hasDD (("$" : String).toList ++ (fmtScaled1 v 1000000).toList)
          = false := by
        apply hasDD_append _ _ (by decide) hfmt
        intro hl _
        exact absurd hl (by decide)
      apply hasDD_append _ _ hx (by decide)
      intro _ hh
      exact absurd hh (by decide)
    · rw [if_neg h2, toList_append]
      apply noDot_hasDD
      intro c hc
      rcases List.mem_append.1 hc with hm | hm
      · rw [List.mem_singleton.1 hm]; decide
      · exact pyGroupNat_not_dot _ c hm

/-- Membership in a conditional singleton forces equality. -/
theorem eq_of_mem_ite_singleton {c : Prop} [Decidable c] {x p : α}
    (h : p ∈ (if c then [x] else [])) : p = x := by
  by_cases hc : c
  · rw [if_pos hc] at h
    exact List.mem_singleton.1 h
  · rw [if_neg hc] at h
    cases h

/-- Joining double-dot-free strings with a dot-free, non-empty
separator stays double-dot free. -/
theorem pyJoin_noDD (sep : String) (hne : sep.toList ≠ [])
    (hsep : hasDD sep.toList = false)
    (hhead : sep.toList.head? ≠ some '.')
    (hlast : sep.toList.getLast? ≠ some '.') :
    ∀ ls : List String, (∀ s ∈ ls, hasDD s.toList = false) →
      hasDD (pyJoin sep ls).toList = false
  | [], _ => rfl
  | [x], h => h x (List.mem_cons_self _ _)
  | x :: y :: ys, h => by
    show hasDD (x ++ sep ++ pyJoin sep (y :: ys)).toList = false
    rw [toList_append, toList_append, List.append_assoc]
    have hyj : hasDD (pyJoin sep (y :: ys)).toList = false :=
      pyJoin_noDD sep hne hsep hhead hlast (y :: ys)
        (fun s hs => h s (List.mem_cons_of_mem _ hs))
    have hsj : hasDD (sep.toList ++ (pyJoin sep (y :: ys)).toList) = false := by
      apply hasDD_append _ _ hsep hyj
      intro hl _
      exact hlast hl
    apply hasDD_append _ _ (h x (List.mem_cons_self _ _)) hsj
    intro _ hh
    cases hsepl : sep.toList with
    | nil => exact hne hsepl
    | cons d ds =>
      apply hhead
      rw [hsepl] at hh ⊢
      exact hh

/-- Every location part is a rendered city or state. -/
theorem location_parts_noDD (r : ProfRow)
    (h2 : hasDD r.city.pyStr.toList = false)
    (h3 : hasDD r.state.pyStr.toList = false) :
    ∀ s ∈ location_parts r, hasDD s.toList = false := by
  intro s hs
  unfold location_parts at hs
  rcases List.mem_append.1 hs with h | h
  · rw [eq_of_mem_ite_singleton h]; exact h2
  · rw [eq_of_mem_ite_singleton h]; exact h3

/-- The location clause is double-dot free. -/
theorem locationClause_noDD (r : ProfRow)
    (h2 : hasDD r.city.pyStr.toList = false)
    (h3 : hasDD r.state.pyStr.toList = false) :
    ∀ p, locationClause r = some p → hasDD p.toList = false := by
  intro p hp
  unfold locationClause at hp
  split at hp
  · cases hp
  · rw [← Option.some_inj.mp hp, toList_append]
    apply hasDD_append _ _ (by decide)
      (pyJoin_noDD ", " (by decide) (by decide) (by decide) (by decide)
        (location_parts r) (location_parts_noDD r h2 h3))
    intro hl _
    exact absurd hl (by decide)

/-- Every identifier string is a dot-free literal plus a rendered
field. -/
theorem identifiers_noDD (r : ProfRow)
    (h4 : hasDD r.crd_number.pyStr.toList = false)
    (h5 : hasDD r.sec_number.pyStr.toList = false) :
    ∀ s ∈ identifiers r, hasDD s.toList = false := by
  intro s hs
  unfold identifiers at hs
  rcases List.mem_append.1 hs with h | h
  · rw [eq_of_mem_ite_singleton h, toList_append]
    apply hasDD_append _ _ (by decide) h4
    intro hl _
    exact absurd hl (by decide)
  · rw [eq_of_mem_ite_singleton h, toList_append]
    apply hasDD_append _ _ (by decide) h5
    intro hl _
    exact absurd hl (by decide)

/-- The identifier clause is double-dot free. -/
theorem identClause_noDD (r : ProfRow)
    (h4 : hasDD r.crd_number.pyStr.toList = false)
    (h5 : hasDD r.sec_number.pyStr.toList = false) :
    ∀ p, identClause r = some p → hasDD p.toList = false := by
  intro p hp
  unfold identClause at hp
  split at hp
  · cases hp
  · rw [← Option.some_inj.mp hp, toList_append]
    apply hasDD_append _ _ (by decide)
      (pyJoin_noDD " and " (by decide) (by decide) (by decide) (by decide)
        (identifiers r) (identifiers_noDD r h4 h5))
    intro hl _
    exact absurd hl (by decide)

/-- The AUM clause is double-dot free. -/
theorem aumClause_noDD (r : ProfRow) :
    ∀ p, aumClause r = some p → hasDD p.toList = false := by
  intro p hp
  unfold aumClause at hp
  rcases Option.map_eq_some'.1 hp with ⟨v, -, hv⟩
  rw [← hv, toList_append, toList_append]
  have hx : hasDD (("managing " : String).toList ++ (aumStrOf v).toList)
      = false := by
    apply hasDD_append _ _ (by decide) (aumStrOf_noDD v)
    intro hl _
    exact absurd hl (by decide)
  apply hasDD_append _ _ hx (by decide)
  intro _ hh
  exact absurd hh (by decide)

/-- The employee-count clause is dot free. -/
theorem employeeClause_noDD (r : ProfRow) :
    ∀ p, employeeClause r = some p → hasDD p.toList = false := by
  intro p hp
  unfold employeeClause at hp
  rcases Option.map_eq_some'.1 hp with ⟨v, -, hv⟩
  rw [← hv, toList_append, toList_append]
  apply noDot_hasDD
  intro c hc
  rcases List.mem_append.1 hc with hm | hm
  · rcases List.mem_append.1 hm with hm' | hm'
    · have hlit : ∀ x ∈ ("with " : String).toList, (x == '.') = false := by decide
      exact hlit c hm'
    · exact pyIntStr_not_dot v c hm'
  · have hlit : ∀ x ∈ (" employees" : String).toList, (x == '.') = false := by decide
    exact hlit c hm

/-- A text clause is double-dot free when its processed field is. -/
theorem textClause_noDD (c : Cell) (pre : String)
    (hpre : hasDD pre.toList = false)
    (hlast : pre.toList.getLast? ≠ some '.')
    (hc : hasDD (pyLower (pyStrip c.pyStr)).toList = false) :
    ∀ p, textClause c pre = some p → hasDD p.toList = false := by
  intro p hp
  unfold textClause at hp
  split at hp
  · split at hp
    · rw [← Option.some_inj.mp hp, toList_append]
      apply hasDD_append _ _ hpre hc
      intro hl _
      exact hlast hl
    · cases hp
  · cases hp

/-- Every clause of the narrative is double-dot free when every
rendered field fragment is. -/
theorem narrativeParts_noDD (r : ProfRow)
    (h1 : hasDD r.firm_name.pyStr.toList = false)
    (h2 : hasDD r.city.pyStr.toList = false)
    (h3 : hasDD r.state.pyStr.toList = false)
    (h4 : hasDD r.crd_number.pyStr.toList = false)
    (h5 : hasDD r.sec_number.pyStr.toList = false)
    (h6 : hasDD (pyLower (pyStrip r.services.pyStr)).toList = false)
    (h7 : hasDD (pyLower (pyStrip r.client_types.pyStr)).toList = false) :
    ∀ p ∈ narrativeParts r, hasDD p.toList = false := by
  intro p hp
  unfold narrativeParts at hp
  rcases List.mem_append.1 hp with hp | hp
  · rcases List.mem_append.1 hp with hp | hp
    · rcases List.mem_append.1 hp with hp | hp
      · rcases List.mem_append.1 hp with hp | hp
        · rcases List.mem_append.1 hp with hp | hp
          · rcases List.mem_append.1 hp with hp | hp
            · rw [eq_of_mem_ite_singleton hp, toList_append]
              apply hasDD_append _ _ h1 (by decide)
              intro _ hh
              exact absurd hh (by decide)
            · exact locationClause_noDD r h2 h3 p (Option.mem_toList.1 hp)
          · exact identClause_noDD r h4 h5 p (Option.mem_toList.1 hp)
        · exact aumClause_noDD r p (Option.mem_toList.1 hp)
      · exact employeeClause_noDD r p (Option.mem_toList.1 hp)
    · exact textClause_noDD r.services _ (by decide) (by decide) h6 p
        (Option.mem_toList.1 hp)
  · exact textClause_noDD r.client_types _ (by decide) (by decide) h7 p
      (Option.mem_toList.1 hp)

/-- `".."`-prefix test unfolded. -/
theorem isPrefixOf_dd (a b : Char) (r : List Char) :
    (['.', '.'].isPrefixOf (a :: b :: r)) = ((a == '.') && (b == '.')) := by
  show (('.' == a) && (('.' == b) && (List.isPrefixOf [] r))) = _
  have hnil : List.isPrefixOf ([] : List Char) r = true := by
    cases r <;> rfl
  rw [hnil]
  have hsymm : ∀ x y : Char, (x == y) = (y == x) := by
    intro x y
    by_cases h : x = y
    · rw [h]
    · have h1 : (x == y) = false := by simp [h]
      have h2 : (y == x) = false := by simp [Ne.symm h]
      rw [h1, h2]
  rw [Bool.and_true, hsymm '.' a, hsymm '.' b]

/-- Adjacent-dot detection coincides with substring containment of
`".."`. -/
theorem hasDD_eq_containsSub : ∀ l : List Char,
    hasDD l = containsSub l ['.', '.']
  | [] => rfl
  | [c] => by
    show false = containsSub [c] ['.', '.']
    have h : containsSub [c] ['.', '.']
        = (['.', '.'].isPrefixOf [c] || (['.', '.'].isPrefixOf ([] : List Char) || false)) := by
      rfl
    rw [h]
    show false = ((('.' == c) && false) || _)
    simp
  | a :: b :: r => by
    have ht : containsSub (a :: b :: r) ['.', '.']
        = (['.', '.'].isPrefixOf (a :: b :: r) || containsSub (b :: r) ['.', '.']) := by
      simp [containsSub, List.tails_cons]
    show (((a == '.') && (b == '.')) || hasDD (b :: r)) = _
    rw [ht, isPrefixOf_dd, hasDD_eq_containsSub (b :: r)]

/-- C9 (counterexample): `replace("..", ".")` makes one left-to-right
pass, so `"..."` collapses to `".."`, not to `"."`: the narrative for a
firm named `"A..."` still contains `".."`. -/
theorem c9_counterexample :
    hasDD (build_narrative { firm_name := Cell.s "A..." }).toList = true
    ∧ containsSub (build_narrative { firm_name := Cell.s "A..." }).toList
        ['.', '.'] = true := by
  exact ⟨rfl, rfl⟩

/-- C9 (amended): the narrative never contains the substring `".."`
provided no rendered field fragment itself contains two consecutive
periods — the joining artifacts (a clause ending in a period meeting
the `". "` separator or the final period) are always collapsed by the
replacement pass; only a `"..."` already present in a field survives it
as `".."`. -/
theorem c9_amended (r : ProfRow)
    (h1 : hasDD r.firm_name.pyStr.toList = false)
    (h2 : hasDD r.city.pyStr.toList = false)
    (h3 : hasDD r.state.pyStr.toList = false)
    (h4 : hasDD r.crd_number.pyStr.toList = false)
    (h5 : hasDD r.sec_number.pyStr.toList = false)
    (h6 : hasDD (pyLower (pyStrip r.services.pyStr)).toList = false)
    (h7 : hasDD (pyLower (pyStrip r.client_types.pyStr)).toList = false) :
    hasDD (build_narrative r).toList = false
    ∧ containsSub (build_narrative r).toList ['.', '.'] = false := by
  have hmain : hasDD (build_narrative r).toList = false := by
    unfold build_narrative
    by_cases hps : (narrativeParts r).isEmpty
    · rw [if_pos hps]; rfl
    · rw [if_neg hps]
      have hres : (((replaceDD (pyJoin ". " (narrativeParts r) ++ ".").toList).asString).toList)
          = replaceDD (pyJoin ". " (narrativeParts r) ++ ".").toList := rfl
      rw [hres]
      apply replaceDD_no_dd
      have hchars : (pyJoin ". " (narrativeParts r) ++ ".").toList
          = (pyJoin ". " (narrativeParts r)).toList ++ ['.'] := by
        rw [toList_append]
        rfl
      rw [hchars]
      exact pyJoin_dot_triple_free _
        (narrativeParts_noDD r h1 h2 h3 h4 h5 h6 h7)
  refine ⟨hmain, ?_⟩
  rw [← hasDD_eq_containsSub]
  exact hmain

/-- C9 (witness): the amended theorem applied to a plain-named firm
profile (all other fields NaN). -/
theorem c9_witness :
    hasDD (build_narrative { firm_name := Cell.s "Acme Advisors" }).toList = false
    ∧ containsSub
        (build_narrative { firm_name := Cell.s "Acme Advisors" }).toList
        ['.', '.'] = false := by
  exact c9_amended ({ firm_name := Cell.s "Acme Advisors" } : ProfRow)
    (by decide) (by decide) (by decide) (by decide) (by decide)
    (by decide) (by decide)

end RiaHunter
